import Mathlib

/-!
Verification of the review_radar auto-labeling pipeline.

Shallow embedding of the core of the repository:
* `GeminiFlashLite25Provider.parser_label` and `process_label`
  (src/review_radar/services/labeling/providers/gemini_flash_lite_2_5_provider.py);
* `LabelingService.make_labels`, `update_log` and `reset_counters`
  (src/review_radar/services/labeling/labeling_service.py);
* the Supabase data layer `get_unlabeled_reviews` / `insert_labels_batch`
  (src/review_radar/data/review_data_supabase_client.py,
   src/review_radar/data/label_data_supabase.py).

Modelling conventions:
* JSON numbers are rationals; Python floats of the source scenarios (0.9, 0.25, ...)
  are represented exactly.
* Python exceptions are explicit values of `PyErr`.  `json.loads` (a library
  function, not repository code) is abstracted by a `decode` parameter; the LLM
  backend is abstracted by an oracle giving the outcome of the k-th provider
  call, and the storage backend write path by an oracle saying whether the k-th
  bulk insert raises.  The wall-clock timestamp written by `update_log` is
  outside the embedding; a usage-log row carries the remaining four fields.
* Python `try/except/finally` control flow (including a `return` or an
  exception being overridden by an exception raised in `finally`, and
  `reset_counters` being skipped when the `finally` flush raises) is modelled
  explicitly in `runPage`.
-/

namespace ReviewRadar

/-- JSON values as produced by `json.loads`. -/
inductive JValue where
  | null : JValue
  | bool (b : Bool) : JValue
  | num (q : ℚ) : JValue
  | str (s : String) : JValue
  | arr (xs : List JValue) : JValue
  | obj (kvs : List (String × JValue)) : JValue

/-- Numeric view of a JSON value under Python comparison semantics:
`bool` is an `int` subtype in Python, so `True`/`False` compare as 1/0;
comparing `None`, strings, lists or dicts against a float raises `TypeError`. -/
def asNum : JValue → Option ℚ
  | .num q => some q
  | .bool b => some (if b then 1 else 0)
  | _ => none

/-- Python exceptions that the modelled code can raise. -/
inductive PyErr where
  | valueError (msg : String) : PyErr
  | typeError : PyErr
  | keyError : PyErr
  | storageError : PyErr
deriving DecidableEq

/-- The `for s in scores` validation loop of `parser_label`:
`if s is not None and not (-1.0 <= s <= 1.0): raise ValueError(...)`.
A non-null, non-numeric `s` raises `TypeError` from the comparison itself. -/
def checkScores (response : String) : List JValue → Except PyErr Unit
  | [] => .ok ()
  | s :: rest =>
    match s with
    | .null => checkScores response rest
    | s =>
      match asNum s with
      | none => .error .typeError
      | some q =>
        if -1 ≤ q ∧ q ≤ 1 then checkScores response rest
        else .error (.valueError ("Scores must be between -1.0 and 1.0 or null, " ++ response))

/-- The `for c in confidences` validation loop of `parser_label`:
`if not (0.0 <= c <= 1.0): raise ValueError(...)`.
A null (or otherwise non-numeric) `c` raises `TypeError` from `0.0 <= c`. -/
def checkConfs (response : String) : List JValue → Except PyErr Unit
  | [] => .ok ()
  | c :: rest =>
    match asNum c with
    | none => .error .typeError
    | some q =>
      if 0 ≤ q ∧ q ≤ 1 then checkConfs response rest
      else .error (.valueError ("Confidences must be between 0.0 and 1.0, " ++ response))

/-- `GeminiFlashLite25Provider.parser_label`.  `decode` abstracts `json.loads`
(`none` = `json.JSONDecodeError`); `aspects` is the construction-time aspect
list.  Returns the validated `(scores, confidences)` pair of raw JSON values. -/
def parser_label (aspects : List String) (decode : String → Option JValue)
    (response : String) : Except PyErr (List JValue × List JValue) :=
  match decode response with
  | none => .error (.valueError ("Response is not valid JSON: " ++ response))
  | some parsed =>
    match parsed with
    | .arr [a, b] =>
      match a, b with
      | .arr scores, .arr confidences =>
        if scores.length = aspects.length ∧ confidences.length = aspects.length then
          match checkScores response scores with
          | .error e => .error e
          | .ok _ =>
            match checkConfs response confidences with
            | .error e => .error e
            | .ok _ => .ok (scores, confidences)
        else .error (.valueError ("Both lists must match number of aspects, " ++ response))
      | _, _ => .error (.valueError ("Both elements must be lists, " ++ response))
    | _ => .error (.valueError ("Response must be a list of two lists, " ++ response))

/-- One entry of the `labels` dict built by `process_label`:
`labels[aspect] = dict with keys score and confidence` (raw JSON values). -/
structure ScoreConf where
  score : JValue
  confidence : JValue

/-- The `usage_metadata` sub-dict of `LabelResult.metadata`; a `none` field
models the key being absent, so that reading it raises `KeyError`. -/
structure UsageMetadata where
  prompt_token_count : Option ℕ
  candidates_token_count : Option ℕ

/-- The `metadata` dict of a `LabelResult`; `usage_metadata = none` models a
provider result whose metadata lacks the `usage_metadata` key. -/
structure Metadata where
  usage_metadata : Option UsageMetadata
  text_len : Option ℕ
  model_version : Option String

/-- `LabelResult` of `base_provider.py`: per-aspect labels plus provider
metadata.  The `labels` dict is an insertion-ordered association list. -/
structure LabelResult where
  labels : List (String × ScoreConf)
  metadata : Metadata

/-- Python dict assignment `d[k] = v`: replace the value if the key is
present, otherwise append the pair, preserving insertion order. -/
def dictInsert (d : List (String × ScoreConf)) (k : String) (v : ScoreConf) :
    List (String × ScoreConf) :=
  if d.any (fun kv => kv.1 == k) then
    d.map (fun kv => if kv.1 == k then (k, v) else kv)
  else d ++ [(k, v)]

/-- The `for i, aspect in enumerate(self.aspects)` loop of `process_label`,
building the `labels` dict with `scores[i]` and `confidences[i]`. -/
def buildLabelsAux (ss cs : List JValue) :
    List (String × ScoreConf) → ℕ → List String → List (String × ScoreConf)
  | d, _, [] => d
  | d, i, a :: rest =>
    buildLabelsAux ss cs (dictInsert d a ⟨ss.getD i .null, cs.getD i .null⟩) (i + 1) rest

/-- The `labels` dict assembled by `process_label` from validated scores and
confidences. -/
def buildLabels (aspects : List String) (ss cs : List JValue) :
    List (String × ScoreConf) :=
  buildLabelsAux ss cs [] 0 aspects

/-- The backend `GenerateContentResponse` as used by `process_label`:
its `.text`, and the `usage_metadata` / `model_version` entries of
`.to_dict()`. -/
structure GenResponse where
  text : String
  prompt_token_count : ℕ
  candidates_token_count : ℕ
  model_version : String

/-- `GeminiFlashLite25Provider.process_label` for one review text, given the
backend response `resp` returned by `ark_llm`.  Parse errors are re-raised;
on success the aspect names are zipped with (score, confidence) pairs and the
usage / text-length / model-version metadata is attached. -/
def process_label (aspects : List String) (decode : String → Option JValue)
    (resp : GenResponse) (review_text : String) : Except PyErr LabelResult :=
  match parser_label aspects decode resp.text with
  | .error e => .error e
  | .ok (scores, confidences) =>
    .ok { labels := buildLabels aspects scores confidences,
          metadata :=
            { usage_metadata :=
                some ⟨some resp.prompt_token_count, some resp.candidates_token_count⟩,
              text_len := some review_text.length,
              model_version := some resp.model_version } }

/-! ## The labeling orchestrator (`LabelingService.make_labels`) -/

/-- One row of the `reviews` table visible to the orchestrator. -/
structure Review where
  id : ℕ
  review : String

/-- One row appended to the per-batch usage log by `update_log` (the
wall-clock `timestamp` field is outside the embedding). -/
structure LogRow where
  status : String
  input_tokens : ℕ
  output_tokens : ℕ
  total_requests : ℕ
deriving DecidableEq

/-- The keyword arguments of `make_labels` (source spelling kept). -/
structure Params where
  fecth_limit : ℕ
  batch_size : ℕ
  input_token_limit : ℕ
  output_token_limit : ℕ

/-- The run's external collaborators: the batch's `reviews` table in table
order, the outcome of the k-th provider call (`.error` = the call raised, any
exception), and whether the k-th bulk label insert raises a storage error. -/
structure Env where
  reviews : List Review
  prov : ℕ → Except Unit LabelResult
  insertFail : ℕ → Bool

/-- The orchestrator-visible mutable state: persisted label rows, the trace of
successful bulk inserts, counts of insert and provider calls (oracle indices),
the usage log, and the `RunCounters`. -/
structure RunState where
  labels : List (ℕ × LabelResult)
  inserts : List (List (ℕ × LabelResult))
  insCalls : ℕ
  log : List LogRow
  total_input_tokens : ℕ
  total_output_tokens : ℕ
  total_requests : ℕ
  provCalls : ℕ

/-- Whether a review id has a row in the `labels` table. -/
def hasLabel (st : RunState) (rid : ℕ) : Bool :=
  st.labels.any (fun p => p.1 == rid)

/-- `ReviewDataSupabaseClient.get_unlabeled_reviews`: filter the batch's
reviews to those with no label row (`.is_('labels', None)`), then apply
`.range(offset, offset + limit - 1)`. -/
def get_unlabeled_reviews (env : Env) (st : RunState) (limit offset : ℕ) :
    List Review :=
  ((env.reviews.filter (fun r => ! hasLabel st r.id)).drop offset).take limit

/-- `ReviewRepository.get_unlabeled_reviews`: `_validate_positive(limit, "limit")`
raises `ValueError(f"limit must be positive, got {limit}")` before the
data-layer query runs.  (`batch_id` is validated the same way, but the
embedding fixes one valid batch — positive `batch_id` — on which those checks
pass.) -/
def repo_get_unlabeled_reviews (env : Env) (st : RunState) (limit offset : ℕ) :
    Except PyErr (List Review) :=
  if limit ≤ 0 then
    .error (.valueError ("limit must be positive, got " ++ toString limit))
  else
    .ok (get_unlabeled_reviews env st limit offset)

/-- `LabelingService.update_log`: append one report row with the current
counters to the per-batch usage log. -/
def update_log (st : RunState) (status : String) : RunState :=
  { st with log := st.log ++
      [⟨status, st.total_input_tokens, st.total_output_tokens, st.total_requests⟩] }

/-- `LabelingService.reset_counters`. -/
def reset_counters (st : RunState) : RunState :=
  { st with total_input_tokens := 0, total_output_tokens := 0, total_requests := 0 }

/-- `LabelDataSupabaseClient.insert_labels_batch`: a single batched insert of
the buffered rows; any storage failure is re-raised to the caller. -/
def insert_labels_batch (env : Env) (st : RunState)
    (batch : List (ℕ × LabelResult)) : RunState × Option PyErr :=
  if env.insertFail st.insCalls then
    ({ st with insCalls := st.insCalls + 1 }, some .storageError)
  else
    ({ st with labels := st.labels ++ batch,
               inserts := st.inserts ++ [batch],
               insCalls := st.insCalls + 1 }, none)

/-- How the body of the per-page `try` block ended: fell through the record
loop, executed `return`, or an exception is propagating. -/
inductive Pending where
  | fall : Pending
  | retNorm : Pending
  | raised (e : PyErr) : Pending
deriving DecidableEq

/-- The `for review in reviews` loop inside `make_labels`: call the provider
(any exception → log and `return`), update the token counters (a missing
usage key raises `KeyError`), buffer the result, flush the buffer when it
reaches `batch_size` (a storage error propagates and the buffer is not
cleared), and stop with status `stopped_due_to_token_limit` when a token
limit is strictly exceeded. -/
def processReviews (env : Env) (p : Params) :
    List Review → RunState → List (ℕ × LabelResult) →
    RunState × List (ℕ × LabelResult) × Pending
  | [], st, buf => (st, buf, .fall)
  | r :: rest, st, buf =>
    match env.prov st.provCalls with
    | .error _ => ({ st with provCalls := st.provCalls + 1 }, buf, .retNorm)
    | .ok label =>
      let st1 := { st with provCalls := st.provCalls + 1 }
      match label.metadata.usage_metadata with
      | none => (st1, buf, .raised .keyError)
      | some u =>
        match u.prompt_token_count with
        | none => (st1, buf, .raised .keyError)
        | some ptc =>
          let st2 := { st1 with total_input_tokens := st1.total_input_tokens + ptc }
          match u.candidates_token_count with
          | none => (st2, buf, .raised .keyError)
          | some ctc =>
            let st3 := { st2 with
              total_output_tokens := st2.total_output_tokens + ctc,
              total_requests := st2.total_requests + 1 }
            let buf1 := buf ++ [(r.id, label)]
            match
              (if buf1.length ≥ p.batch_size then
                match insert_labels_batch env st3 buf1 with
                | (st4, some e) => (st4, buf1, some e)
                | (st4, none) => (st4, ([] : List (ℕ × LabelResult)), none)
              else (st3, buf1, none) :
                RunState × List (ℕ × LabelResult) × Option PyErr) with
            | (st4, buf2, some e) => (st4, buf2, .raised e)
            | (st4, buf2, none) =>
              if st4.total_input_tokens > p.input_token_limit ∨
                 st4.total_output_tokens > p.output_token_limit then
                (update_log st4 "stopped_due_to_token_limit", buf2, .retNorm)
              else
                processReviews env p rest st4 buf2

/-- How one iteration of the outer page loop ended. -/
inductive PageResult where
  | nextPage : PageResult
  | finished : PageResult
  | escaped (e : PyErr) : PageResult
deriving DecidableEq

/-- One non-empty page iteration of `make_labels`: run the record loop, apply
`except KeyError` (log a `failed_due_to_keyerror` row, then `return`), then
the `finally` block: flush a non-empty buffer (a storage error here replaces
any pending return/exception and skips `reset_counters`), reset the counters,
and resume the pending control flow. -/
def runPage (env : Env) (p : Params) (reviews : List Review) (st : RunState) :
    RunState × PageResult :=
  match processReviews env p reviews st [] with
  | (st1, buf, pend) =>
    match
      (match pend with
       | .raised .keyError => (update_log st1 "failed_due_to_keyerror", Pending.retNorm)
       | x => (st1, x) : RunState × Pending) with
    | (st2, pend2) =>
      if buf.isEmpty then
        let st3 := reset_counters st2
        match pend2 with
        | .fall => (st3, .nextPage)
        | .retNorm => (st3, .finished)
        | .raised e => (st3, .escaped e)
      else
        match insert_labels_batch env st2 buf with
        | (st3, some e) => (st3, .escaped e)
        | (st3, none) =>
          let st4 := reset_counters st3
          match pend2 with
          | .fall => (st4, .nextPage)
          | .retNorm => (st4, .finished)
          | .raised e => (st4, .escaped e)

/-- How `make_labels` as a whole ended: returned normally, or let an
exception escape to the invoking process. -/
inductive RunExit where
  | normal : RunExit
  | raised (e : PyErr) : RunExit
deriving DecidableEq

/-- The `for i in range(0, 10000)` pagination loop of `make_labels`, from page
index `i` with `fuel` iterations left: fetch the page at
`offset = i * fecth_limit` through the repository — its limit validation may
raise `ValueError`, and the fetch sits outside the page's `try`, so that
exception escapes the run; an empty page logs a `completed` row and breaks. -/
def makeLabelsFrom (env : Env) (p : Params) : ℕ → ℕ → RunState → RunState × RunExit
  | 0, _, st => (st, .normal)
  | fuel + 1, i, st =>
    match repo_get_unlabeled_reviews env st p.fecth_limit (i * p.fecth_limit) with
    | .error e => (st, .raised e)
    | .ok reviews =>
      if reviews.isEmpty then
        (update_log st "completed", .normal)
      else
        match runPage env p reviews st with
        | (st1, .nextPage) => makeLabelsFrom env p fuel (i + 1) st1
        | (st1, .finished) => (st1, .normal)
        | (st1, .escaped e) => (st1, .raised e)

/-- `LabelingService.make_labels`, started from storage/counter state `st0`. -/
def make_labels (env : Env) (p : Params) (st0 : RunState) : RunState × RunExit :=
  makeLabelsFrom env p 10000 0 st0

/-- A fresh orchestrator state: empty labels table, empty log, zero counters
(as set by `LabelingService.__init__`). -/
def initState : RunState := ⟨[], [], 0, [], 0, 0, 0, 0⟩

/-! ## Concrete scenario environments -/

/-- A review row with a placeholder text. -/
def rev (n : ℕ) : Review := ⟨n, "t"⟩

/-- An abstract provider result carrying only usage metadata. -/
def okLabel (pt ct : ℕ) : LabelResult := ⟨[], ⟨some ⟨some pt, some ct⟩, none, none⟩⟩

/-- Four unlabeled reviews; provider always succeeds with usage (1, 1);
storage healthy. -/
def envFour : Env := ⟨[rev 1, rev 2, rev 3, rev 4], fun _ => .ok (okLabel 1 1), fun _ => false⟩

/-- Page size 2, default write batch size and budgets. -/
def pFetch2 : Params := ⟨2, 20, 1000000, 1000000⟩

/-- Two unlabeled reviews; each provider call reports 100 prompt and 10
candidate tokens; storage healthy. -/
def envTwo : Env := ⟨[rev 1, rev 2], fun _ => .ok (okLabel 100 10), fun _ => false⟩

/-- One unlabeled review; the provider call raises; storage healthy. -/
def envProvErr : Env := ⟨[rev 1], fun _ => .error (), fun _ => false⟩

/-- Five unlabeled reviews; each call reports 100 prompt tokens; healthy. -/
def envFive100 : Env := ⟨[rev 1, rev 2, rev 3, rev 4, rev 5],
  fun _ => .ok (okLabel 100 0), fun _ => false⟩

/-- Input token budget 250, one page of up to 100 records. -/
def pBudget250 : Params := ⟨100, 20, 250, 1000000⟩

/-- Five unlabeled reviews with tiny usage; healthy storage. -/
def envFive : Env := ⟨[rev 1, rev 2, rev 3, rev 4, rev 5],
  fun _ => .ok (okLabel 1 1), fun _ => false⟩

/-- Write batch size 2, one page of up to 100 records. -/
def pBatch2 : Params := ⟨100, 2, 1000000, 1000000⟩

/-- One review, provider fine, but every bulk insert raises a storage error. -/
def envInsFail : Env := ⟨[rev 1], fun _ => .ok (okLabel 1 1), fun _ => true⟩

/-- Write batch size 1 so the in-page flush happens immediately. -/
def pBatch1 : Params := ⟨100, 1, 1000000, 1000000⟩

/-- Six unlabeled reviews with tiny usage; healthy storage. -/
def envSix : Env := ⟨[rev 1, rev 2, rev 3, rev 4, rev 5, rev 6],
  fun _ => .ok (okLabel 1 1), fun _ => false⟩

/-- Page size 2 and write batch size 3: every page flush is partial. -/
def pFetch2Batch3 : Params := ⟨2, 3, 1000000, 1000000⟩








/-! ## Provider scenario (spec §8) -/

/-- The rational 0.5 in reduced structural form (kernel-reducible). -/
def q05 : ℚ := ⟨1, 2, by norm_num, by norm_num⟩

/-- The rational 0.9 in reduced structural form. -/
def q09 : ℚ := ⟨9, 10, by norm_num, by norm_num⟩

/-- The rational 0.95 in reduced structural form. -/
def q095 : ℚ := ⟨19, 20, by norm_num, by norm_num⟩

/-- The rational 0.7 in reduced structural form. -/
def q07 : ℚ := ⟨7, 10, by norm_num, by norm_num⟩

/-- The rational -0.3 in reduced structural form. -/
def qm03 : ℚ := ⟨-3, 10, by norm_num, by norm_num⟩

/-- The rational 1.5 in reduced structural form. -/
def q15 : ℚ := ⟨3, 2, by norm_num, by norm_num⟩

/-- The rational -0.2 in reduced structural form. -/
def qm02 : ℚ := ⟨-1, 5, by norm_num, by norm_num⟩

/-- The backend text of the §8 scenario and a `json.loads` behavior decoding
exactly it. -/
def scenarioDecode : String → Option JValue := fun s =>
  if s = "[[0.9, -0.3], [0.95, 0.7]]" then
    some (.arr [.arr [.num q09, .num qm03],
                .arr [.num q095, .num q07]])
  else none

/-- The backend response envelope of the §8 scenario. -/
def scenarioResp : GenResponse := ⟨"[[0.9, -0.3], [0.95, 0.7]]", 50, 10, "gemini-2.5-flash-lite"⟩

/-- The §8 scenario run as a one-review orchestration: the provider call
returns exactly what `process_label` produces on the scenario response. -/
def scenarioEnv : Env :=
  ⟨[⟨1, "great food, slow service"⟩],
   fun _ =>
     match process_label ["food", "service"] scenarioDecode scenarioResp
         "great food, slow service" with
     | .ok l => .ok l
     | .error _ => .error (),
   fun _ => false⟩






/-! ## Views of the provider oracle -/

/-- Whether the k-th provider call succeeds with complete usage metadata, so
that the orchestrator's counter update does not raise `KeyError`. -/
def callOk (env : Env) (k : ℕ) : Bool :=
  match env.prov k with
  | .ok l =>
    match l.metadata.usage_metadata with
    | some u => u.prompt_token_count.isSome && u.candidates_token_count.isSome
    | none => false
  | .error _ => false

/-- The `prompt_token_count` reported by the k-th provider call (0 if the
call fails or the field is missing). -/
def callPrompt (env : Env) (k : ℕ) : ℕ :=
  match env.prov k with
  | .ok l =>
    match l.metadata.usage_metadata with
    | some u => u.prompt_token_count.getD 0
    | none => 0
  | .error _ => 0

/-- The `candidates_token_count` reported by the k-th provider call. -/
def callCand (env : Env) (k : ℕ) : ℕ :=
  match env.prov k with
  | .ok l =>
    match l.metadata.usage_metadata with
    | some u => u.candidates_token_count.getD 0
    | none => 0
  | .error _ => 0

/-- The label produced by the k-th provider call (junk if the call raised). -/
def callLabel (env : Env) (k : ℕ) : LabelResult :=
  match env.prov k with
  | .ok l => l
  | .error _ => ⟨[], ⟨none, none, none⟩⟩

/-- Total prompt tokens over `n` consecutive provider calls starting at
call index `k`. -/
def promptSum (env : Env) (k : ℕ) : ℕ → ℕ
  | 0 => 0
  | n + 1 => promptSum env k n + callPrompt env (k + n)

/-- Total candidate tokens over `n` consecutive provider calls starting at
call index `k`. -/
def candSum (env : Env) (k : ℕ) : ℕ → ℕ
  | 0 => 0
  | n + 1 => candSum env k n + callCand env (k + n)

/-- A placeholder review used with `List.getD`. -/
def dummyReview : Review := ⟨0, ""⟩

/-- A backend decode producing a response with one in-range score and a null
confidence (spec property P6). -/
def nullConfDecode : String → Option JValue :=
  fun _ => some (.arr [.arr [.num 0], .arr [.null]])

/-- Five unlabeled reviews; the provider succeeds on the first two calls and
raises on the third (spec property P8). -/
def envErrAt3 : Env :=
  ⟨[rev 1, rev 2, rev 3, rev 4, rev 5],
   fun k => if k < 2 then .ok (okLabel 1 1) else .error (),
   fun _ => false⟩

/-- Whether a Python exception is a `ValueError`. -/
def isValueErrorB : PyErr → Bool
  | .valueError _ => true
  | _ => false

/-! ## Spec-side predicates for the provider contract -/

/-- Spec wording: a score is null or a number in the closed interval
[-1.0, 1.0] (Python compares booleans as the numbers 0/1). -/
def scoreOkB (s : JValue) : Bool :=
  match s with
  | .null => true
  | s =>
    match asNum s with
    | some q => decide (-1 ≤ q ∧ q ≤ 1)
    | none => false

/-- Spec wording: a confidence is a number in the closed interval
[0.0, 1.0], never null. -/
def confOkB (c : JValue) : Bool :=
  match asNum c with
  | some q => decide (0 ≤ q ∧ q ≤ 1)
  | none => false

/-- Spec wording of a valid raw response: it decodes as a JSON list of
exactly two lists, both of length equal to the aspect count, every score
null or in [-1.0, 1.0], every confidence a number in [0.0, 1.0]. -/
def specValidResponse (aspects : List String) (decode : String → Option JValue)
    (response : String) : Bool :=
  match decode response with
  | some (.arr [.arr ss, .arr cs]) =>
    (ss.length == aspects.length) && (cs.length == aspects.length) &&
    ss.all scoreOkB && cs.all confOkB
  | _ => false

/-- Spec wording of the `labels` mapping: aspect names zipped positionally
with (score, confidence) pairs, in the construction-time aspect order. -/
def specZipLabels (aspects : List String) (ss cs : List JValue) :
    List (String × ScoreConf) :=
  (aspects.zip (ss.zip cs)).map (fun a => (a.1, ⟨a.2.1, a.2.2⟩))

/-- Invariants relating the state and buffer before and after the record loop
of one page: the labels table, insert trace and counters only grow; buffered
rows end up persisted or still buffered; under a healthy storage backend the
only exception propagating out of the loop is `KeyError`, every in-page flush
has exactly `batch_size` rows and the buffer stays below `batch_size`; and
insert batches and the final buffer only contain rows carried in from `buf`
or labeled from this page's reviews. -/
abbrev PRPost (env : Env) (p : Params) (reviews : List Review) (st : RunState)
    (buf : List (ℕ × LabelResult)) (st' : RunState)
    (buf' : List (ℕ × LabelResult)) (pend : Pending) : Prop :=
  (∀ x ∈ st.labels, x ∈ st'.labels) ∧
  st.provCalls ≤ st'.provCalls ∧
  st.total_input_tokens ≤ st'.total_input_tokens ∧
  st.total_output_tokens ≤ st'.total_output_tokens ∧
  st.total_requests ≤ st'.total_requests ∧
  (∀ x ∈ buf, x ∈ st'.labels ∨ x ∈ buf') ∧
  ((∀ k, env.insertFail k = false) → ∀ e, pend = .raised e → e = .keyError) ∧
  ∃ news, st'.inserts = st.inserts ++ news ∧
    (buf.length < p.batch_size → (∀ k, env.insertFail k = false) →
      (∀ b ∈ news, b.length = p.batch_size) ∧ buf'.length < p.batch_size) ∧
    (∀ b ∈ news, ∀ x ∈ b, x ∈ buf ∨ x.1 ∈ reviews.map Review.id) ∧
    (∀ x ∈ buf', x ∈ buf ∨ x.1 ∈ reviews.map Review.id)

/-! ## Helper lemmas about the storage write path -/

theorem repo_fetch_pos (env : Env) (st : RunState) (limit offset : ℕ)
    (hpos : 0 < limit) :
    repo_get_unlabeled_reviews env st limit offset =
      .ok (get_unlabeled_reviews env st limit offset) := by
  simp only [repo_get_unlabeled_reviews]
  rw [if_neg (by omega)]

theorem insert_some (env : Env) (st : RunState) (batch : List (ℕ × LabelResult))
    (st4 : RunState) (e : PyErr) (h : insert_labels_batch env st batch = (st4, some e)) :
    env.insertFail st.insCalls = true ∧ e = .storageError ∧
    st4 = { st with insCalls := st.insCalls + 1 } := by
  unfold insert_labels_batch at h
  by_cases hf : env.insertFail st.insCalls = true
  · rw [if_pos hf] at h
    cases h
    exact ⟨hf, rfl, rfl⟩
  · rw [if_neg hf] at h
    exact absurd (congrArg Prod.snd h) (by simp)

theorem insert_none (env : Env) (st : RunState) (batch : List (ℕ × LabelResult))
    (st4 : RunState) (h : insert_labels_batch env st batch = (st4, none)) :
    env.insertFail st.insCalls = false ∧
    st4 = { st with labels := st.labels ++ batch,
                    inserts := st.inserts ++ [batch],
                    insCalls := st.insCalls + 1 } := by
  unfold insert_labels_batch at h
  by_cases hf : env.insertFail st.insCalls = true
  · rw [if_pos hf] at h
    exact absurd (congrArg Prod.snd h) (by simp)
  · rw [if_neg hf] at h
    cases h
    exact ⟨by simpa using hf, rfl⟩

/-! ## State evolution of the record loop -/

theorem PRPost.terminal {env : Env} {p : Params} {reviews : List Review}
    {st st' : RunState} {buf : List (ℕ × LabelResult)} {pend : Pending}
    (hlab : st'.labels = st.labels) (hins : st'.inserts = st.inserts)
    (hpc : st.provCalls ≤ st'.provCalls)
    (hin : st.total_input_tokens ≤ st'.total_input_tokens)
    (hout : st.total_output_tokens ≤ st'.total_output_tokens)
    (hreq : st.total_requests ≤ st'.total_requests)
    (hpend : ∀ e, pend = .raised e → e = .keyError) :
    PRPost env p reviews st buf st' buf pend := by
  refine ⟨fun x hx => by rw [hlab]; exact hx, hpc, hin, hout, hreq,
    fun x hx => Or.inr hx, fun _ e he => hpend e he,
    [], by simp [hins], fun hb _ => ⟨by simp, hb⟩, by simp, fun x hx => Or.inl hx⟩

theorem processReviews_state (env : Env) (p : Params) (reviews : List Review) :
    ∀ st buf st' buf' pend,
      processReviews env p reviews st buf = (st', buf', pend) →
      PRPost env p reviews st buf st' buf' pend := by
  induction reviews with
  | nil =>
    intro st buf st' buf' pend h
    simp only [processReviews] at h
    cases h
    exact PRPost.terminal rfl rfl (le_refl _) (le_refl _) (le_refl _) (le_refl _)
      (fun e he => nomatch he)
  | cons r rest ih =>
    intro st buf st' buf' pend h
    rw [processReviews] at h
    cases hprov : env.prov st.provCalls with
    | error e0 =>
      simp only [hprov] at h
      cases h
      exact PRPost.terminal rfl rfl (Nat.le_succ _) (le_refl _) (le_refl _) (le_refl _)
        (fun e he => nomatch he)
    | ok label =>
      simp only [hprov] at h
      cases hu : label.metadata.usage_metadata with
      | none =>
        simp only [hu] at h
        cases h
        exact PRPost.terminal rfl rfl (Nat.le_succ _) (le_refl _) (le_refl _) (le_refl _)
          (fun e he => (Pending.raised.inj he).symm)
      | some u =>
        simp only [hu] at h
        cases hpt : u.prompt_token_count with
        | none =>
          simp only [hpt] at h
          cases h
          exact PRPost.terminal rfl rfl (Nat.le_succ _) (le_refl _) (le_refl _) (le_refl _)
            (fun e he => (Pending.raised.inj he).symm)
        | some ptc =>
          simp only [hpt] at h
          cases hct : u.candidates_token_count with
          | none =>
            simp only [hct] at h
            cases h
            exact PRPost.terminal rfl rfl (Nat.le_succ _) (Nat.le_add_right _ _)
              (le_refl _) (le_refl _) (fun e he => (Pending.raised.inj he).symm)
          | some ctc =>
            simp only [hct] at h
            have hlen : (buf ++ [(r.id, label)]).length = buf.length + 1 := by simp
            split at h
            next st4x buf2x ex heq =>
              cases h
              by_cases hflush : (buf ++ [(r.id, label)]).length ≥ p.batch_size
              · rw [if_pos hflush] at heq
                split at heq
                next st5 e5 hins =>
                  cases heq
                  obtain ⟨hfail, he5, hst5⟩ := insert_some _ _ _ _ _ hins
                  subst hst5
                  subst he5
                  refine ⟨?_, ?_, ?_, ?_, ?_, ?_, ?_, ?_⟩
                  · exact fun x hx => hx
                  · exact Nat.le_succ _
                  · exact Nat.le_add_right _ _
                  · exact Nat.le_add_right _ _
                  · exact Nat.le_succ _
                  · exact fun x hx => Or.inr (List.mem_append_left _ hx)
                  · exact fun hhealthy e' he' => absurd hfail (by simp [hhealthy])
                  · refine ⟨[], by simp, ?_, by simp, ?_⟩
                    · exact fun hb hhealthy => absurd hfail (by simp [hhealthy])
                    · intro x hx
                      rcases List.mem_append.mp hx with h1 | h2
                      · exact Or.inl h1
                      · simp only [List.mem_singleton] at h2
                        subst h2
                        exact Or.inr (by simp)
                next st5 hins =>
                  simp at heq
              · rw [if_neg hflush] at heq
                simp at heq
            next st4x buf2x heq =>
              by_cases hflush : (buf ++ [(r.id, label)]).length ≥ p.batch_size
              · rw [if_pos hflush] at heq
                split at heq
                next st5 e5 hins =>
                  simp at heq
                next st5 hins =>
                  cases heq
                  obtain ⟨hok, hst5⟩ := insert_none _ _ _ _ hins
                  subst hst5
                  split at h
                  next hlim =>
                    cases h
                    refine ⟨?_, ?_, ?_, ?_, ?_, ?_, ?_, ?_⟩
                    · exact fun x hx => List.mem_append_left _ hx
                    · exact Nat.le_succ _
                    · exact Nat.le_add_right _ _
                    · exact Nat.le_add_right _ _
                    · exact Nat.le_succ _
                    · exact fun x hx =>
                        Or.inl (List.mem_append_right _ (List.mem_append_left _ hx))
                    · exact fun _ e' he' => nomatch he'
                    · refine ⟨[buf ++ [(r.id, label)]], by simp [update_log], ?_, ?_, by simp⟩
                      · intro hb hhealthy
                        refine ⟨?_, by simp only [List.length_nil]; omega⟩
                        intro b hbm
                        simp only [List.mem_singleton] at hbm
                        subst hbm
                        omega
                      · intro b hbm x hxb
                        simp only [List.mem_singleton] at hbm
                        subst hbm
                        rcases List.mem_append.mp hxb with h1 | h2
                        · exact Or.inl h1
                        · simp only [List.mem_singleton] at h2
                          subst h2
                          exact Or.inr (by simp)
                  next hlim =>
                    obtain ⟨IH1, IH2, IH3, IH4, IH5, IH6, IH7, news, IHins, IHsz,
                      IHcont, IHbuf⟩ := ih _ _ _ _ _ h
                    refine ⟨?_, ?_, ?_, ?_, ?_, ?_, ?_, ?_⟩
                    · exact fun x hx => IH1 x (List.mem_append_left _ hx)
                    · exact le_trans (Nat.le_succ _) IH2
                    · exact le_trans (Nat.le_add_right _ _) IH3
                    · exact le_trans (Nat.le_add_right _ _) IH4
                    · exact le_trans (Nat.le_succ _) IH5
                    · exact fun x hx => Or.inl (IH1 x
                        (List.mem_append_right _ (List.mem_append_left _ hx)))
                    · exact IH7
                    · refine ⟨(buf ++ [(r.id, label)]) :: news, ?_, ?_, ?_, ?_⟩
                      · rw [IHins]
                        simp
                      · intro hb hhealthy
                        obtain ⟨hsz, hbuf'⟩ :=
                          IHsz (by simp only [List.length_nil]; omega) hhealthy
                        refine ⟨?_, hbuf'⟩
                        intro b hbm
                        rcases List.mem_cons.mp hbm with h1 | h2
                        · subst h1
                          omega
                        · exact hsz b h2
                      · intro b hbm x hxb
                        rcases List.mem_cons.mp hbm with h1 | h2
                        · subst h1
                          rcases List.mem_append.mp hxb with h3 | h4
                          · exact Or.inl h3
                          · simp only [List.mem_singleton] at h4
                            subst h4
                            exact Or.inr (by simp)
                        · rcases IHcont b h2 x hxb with h3 | h4
                          · exact absurd h3 (List.not_mem_nil x)
                          · exact Or.inr (List.mem_cons_of_mem _ h4)
                      · intro x hx
                        rcases IHbuf x hx with h3 | h4
                        · exact absurd h3 (List.not_mem_nil x)
                        · exact Or.inr (List.mem_cons_of_mem _ h4)
              · rw [if_neg hflush] at heq
                cases heq
                split at h
                next hlim =>
                  cases h
                  refine ⟨?_, ?_, ?_, ?_, ?_, ?_, ?_, ?_⟩
                  · exact fun x hx => hx
                  · exact Nat.le_succ _
                  · exact Nat.le_add_right _ _
                  · exact Nat.le_add_right _ _
                  · exact Nat.le_succ _
                  · exact fun x hx => Or.inr (List.mem_append_left _ hx)
                  · exact fun _ e' he' => nomatch he'
                  · refine ⟨[], by simp [update_log], ?_, by simp, ?_⟩
                    · exact fun hb _ => ⟨by simp, by omega⟩
                    · intro x hx
                      rcases List.mem_append.mp hx with h1 | h2
                      · exact Or.inl h1
                      · simp only [List.mem_singleton] at h2
                        subst h2
                        exact Or.inr (by simp)
                next hlim =>
                  obtain ⟨IH1, IH2, IH3, IH4, IH5, IH6, IH7, news, IHins, IHsz,
                    IHcont, IHbuf⟩ := ih _ _ _ _ _ h
                  refine ⟨?_, ?_, ?_, ?_, ?_, ?_, ?_, ?_⟩
                  · exact fun x hx => IH1 x hx
                  · exact le_trans (Nat.le_succ _) IH2
                  · exact le_trans (Nat.le_add_right _ _) IH3
                  · exact le_trans (Nat.le_add_right _ _) IH4
                  · exact le_trans (Nat.le_succ _) IH5
                  · exact fun x hx => IH6 x (List.mem_append_left _ hx)
                  · exact IH7
                  · refine ⟨news, IHins, ?_, ?_, ?_⟩
                    · intro hb hhealthy
                      exact IHsz (by omega) hhealthy
                    · intro b hbm x hxb
                      rcases IHcont b hbm x hxb with h3 | h4
                      · rcases List.mem_append.mp h3 with h5 | h6
                        · exact Or.inl h5
                        · simp only [List.mem_singleton] at h6
                          subst h6
                          exact Or.inr (by simp)
                      · exact Or.inr (List.mem_cons_of_mem _ h4)
                    · intro x hx
                      rcases IHbuf x hx with h3 | h4
                      · rcases List.mem_append.mp h3 with h5 | h6
                        · exact Or.inl h5
                        · simp only [List.mem_singleton] at h6
                          subst h6
                          exact Or.inr (by simp)
                      · exact Or.inr (List.mem_cons_of_mem _ h4)

/-- Log behavior of the record loop: either the usage log is unchanged — and
then the loop fell through, an exception is propagating, or the `return` came
from a provider-call error (whose call index is the last one made) — or
exactly one `stopped_due_to_token_limit` row was appended and the loop
executed `return`. -/
theorem processReviews_log (env : Env) (p : Params) (reviews : List Review) :
    ∀ st buf st' buf' pend,
      processReviews env p reviews st buf = (st', buf', pend) →
      (st'.log = st.log ∧
        (pend = .fall ∨ (∃ e, pend = .raised e) ∨
          (pend = .retNorm ∧ ∃ k, env.prov k = .error () ∧ st'.provCalls = k + 1)))
      ∨ (∃ row : LogRow, st'.log = st.log ++ [row] ∧
          row.status = "stopped_due_to_token_limit" ∧ pend = .retNorm) := by
  induction reviews with
  | nil =>
    intro st buf st' buf' pend h
    simp only [processReviews] at h
    cases h
    exact Or.inl ⟨rfl, Or.inl rfl⟩
  | cons r rest ih =>
    intro st buf st' buf' pend h
    rw [processReviews] at h
    cases hprov : env.prov st.provCalls with
    | error e0 =>
      simp only [hprov] at h
      cases h
      exact Or.inl ⟨rfl, Or.inr (Or.inr ⟨rfl, st.provCalls, hprov, rfl⟩)⟩
    | ok label =>
      simp only [hprov] at h
      cases hu : label.metadata.usage_metadata with
      | none =>
        simp only [hu] at h
        cases h
        exact Or.inl ⟨rfl, Or.inr (Or.inl ⟨_, rfl⟩)⟩
      | some u =>
        simp only [hu] at h
        cases hpt : u.prompt_token_count with
        | none =>
          simp only [hpt] at h
          cases h
          exact Or.inl ⟨rfl, Or.inr (Or.inl ⟨_, rfl⟩)⟩
        | some ptc =>
          simp only [hpt] at h
          cases hct : u.candidates_token_count with
          | none =>
            simp only [hct] at h
            cases h
            exact Or.inl ⟨rfl, Or.inr (Or.inl ⟨_, rfl⟩)⟩
          | some ctc =>
            simp only [hct] at h
            split at h
            next st4x buf2x ex heq =>
              cases h
              exact Or.inl ⟨by
                by_cases hflush : (buf ++ [(r.id, label)]).length ≥ p.batch_size
                · rw [if_pos hflush] at heq
                  split at heq
                  next st5 e5 hins =>
                    cases heq
                    obtain ⟨_, _, hst5⟩ := insert_some _ _ _ _ _ hins
                    rw [hst5]
                  next st5 hins => simp at heq
                · rw [if_neg hflush] at heq
                  simp at heq,
                Or.inr (Or.inl ⟨_, rfl⟩)⟩
            next st4x buf2x heq =>
              have hst4log : st4x.log = st.log ∧ st4x.provCalls = st.provCalls + 1 := by
                by_cases hflush : (buf ++ [(r.id, label)]).length ≥ p.batch_size
                · rw [if_pos hflush] at heq
                  split at heq
                  next st5 e5 hins => simp at heq
                  next st5 hins =>
                    cases heq
                    obtain ⟨_, hst5⟩ := insert_none _ _ _ _ hins
                    rw [hst5]
                    exact ⟨rfl, rfl⟩
                · rw [if_neg hflush] at heq
                  cases heq
                  exact ⟨rfl, rfl⟩
              split at h
              next hlim =>
                cases h
                exact Or.inr ⟨⟨"stopped_due_to_token_limit", st4x.total_input_tokens,
                  st4x.total_output_tokens, st4x.total_requests⟩,
                  by simp [update_log, hst4log.1], rfl, rfl⟩
              next hlim =>
                rcases ih _ _ _ _ _ h with ⟨hlog, hrest⟩ | ⟨row, hlog, hstat, hpend⟩
                · exact Or.inl ⟨by rw [hlog, hst4log.1], hrest⟩
                · exact Or.inr ⟨row, by rw [hlog, hst4log.1], hstat, hpend⟩

/-- Unless the page escaped with an exception (which skips the tail of the
`finally` block), `reset_counters` has run: the counters are zero after every
page iteration. -/
theorem runPage_counters (env : Env) (p : Params) (reviews : List Review)
    (st st' : RunState) (res : PageResult)
    (h : runPage env p reviews st = (st', res)) (hres : ∀ e, res ≠ .escaped e) :
    st'.total_input_tokens = 0 ∧ st'.total_output_tokens = 0 ∧
    st'.total_requests = 0 := by
  rcases hpr : processReviews env p reviews st [] with ⟨st1, buf, pend⟩
  simp only [runPage, hpr] at h
  by_cases hbe : buf.isEmpty = true
  · rw [if_pos hbe] at h
    cases pend with
    | fall => cases h; exact ⟨rfl, rfl, rfl⟩
    | retNorm => cases h; exact ⟨rfl, rfl, rfl⟩
    | raised e =>
      cases e with
      | keyError => cases h; exact ⟨rfl, rfl, rfl⟩
      | valueError m => cases h; exact absurd rfl (hres _)
      | typeError => cases h; exact absurd rfl (hres _)
      | storageError => cases h; exact absurd rfl (hres _)
  · rw [if_neg hbe] at h
    cases pend with
    | fall =>
      split at h
      next st3 e2 hins => cases h; exact absurd rfl (hres _)
      next st3 hins => cases h; exact ⟨rfl, rfl, rfl⟩
    | retNorm =>
      split at h
      next st3 e2 hins => cases h; exact absurd rfl (hres _)
      next st3 hins => cases h; exact ⟨rfl, rfl, rfl⟩
    | raised e =>
      cases e with
      | keyError =>
        split at h
        next st3 e2 hins => cases h; exact absurd rfl (hres _)
        next st3 hins => cases h; exact ⟨rfl, rfl, rfl⟩
      | valueError m =>
        split at h
        next st3 e2 hins => cases h; exact absurd rfl (hres _)
        next st3 hins => cases h; exact absurd rfl (hres _)
      | typeError =>
        split at h
        next st3 e2 hins => cases h; exact absurd rfl (hres _)
        next st3 hins => cases h; exact absurd rfl (hres _)
      | storageError =>
        split at h
        next st3 e2 hins => cases h; exact absurd rfl (hres _)
        next st3 hins => cases h; exact absurd rfl (hres _)

/-- State evolution of one page iteration: the labels table only grows; with a
healthy storage backend no exception escapes; the insert trace grows only by
batches whose rows are labeled from this page's reviews; and with a healthy
backend and a positive write batch size the new inserts are full batches
followed by at most one final partial batch. -/
theorem runPage_state (env : Env) (p : Params) (reviews : List Review)
    (st st' : RunState) (res : PageResult)
    (h : runPage env p reviews st = (st', res)) :
    (∀ x ∈ st.labels, x ∈ st'.labels) ∧
    ((∀ k, env.insertFail k = false) → res = .nextPage ∨ res = .finished) ∧
    ∃ news2, st'.inserts = st.inserts ++ news2 ∧
      (∀ b ∈ news2, ∀ x ∈ b, x.1 ∈ reviews.map Review.id) ∧
      ((∀ k, env.insertFail k = false) → 0 < p.batch_size →
        ∃ mids rem, news2 = mids ++ rem ∧
          (∀ b ∈ mids, b.length = p.batch_size) ∧
          (rem = [] ∨ ∃ l, rem = [l] ∧ 0 < l.length ∧ l.length < p.batch_size)) := by
  rcases hpr : processReviews env p reviews st [] with ⟨st1, buf, pend⟩
  obtain ⟨A1, A2, _, _, _, A6, A7, news, hins1, hsz, hcont, hbufc⟩ :=
    processReviews_state env p reviews st [] st1 buf pend hpr
  have hcont2 : ∀ b ∈ news, ∀ x ∈ b, x.1 ∈ reviews.map Review.id :=
    fun b hb x hx => (hcont b hb x hx).resolve_left (List.not_mem_nil x)
  have hbufc2 : ∀ x ∈ buf, x.1 ∈ reviews.map Review.id :=
    fun x hx => (hbufc x hx).resolve_left (List.not_mem_nil x)
  simp only [runPage, hpr] at h
  by_cases hbe : buf.isEmpty = true
  · rw [if_pos hbe] at h
    have hshape : (∀ k, env.insertFail k = false) → 0 < p.batch_size →
        ∃ mids rem, news = mids ++ rem ∧
          (∀ b ∈ mids, b.length = p.batch_size) ∧
          (rem = [] ∨ ∃ l, rem = [l] ∧ 0 < l.length ∧ l.length < p.batch_size) := by
      intro hh hbs
      exact ⟨news, [], by simp, (hsz (by simpa using hbs) hh).1, Or.inl rfl⟩
    cases pend with
    | fall =>
      cases h
      exact ⟨fun x hx => A1 x hx, fun _ => Or.inl rfl, news, hins1, hcont2, hshape⟩
    | retNorm =>
      cases h
      exact ⟨fun x hx => A1 x hx, fun _ => Or.inr rfl, news, hins1, hcont2, hshape⟩
    | raised e =>
      cases e with
      | keyError =>
        cases h
        exact ⟨fun x hx => A1 x hx, fun _ => Or.inr rfl, news, hins1,
          hcont2, hshape⟩
      | valueError m =>
        cases h
        exact ⟨fun x hx => A1 x hx,
          fun hh => absurd (A7 hh _ rfl) (by simp), news, hins1, hcont2, hshape⟩
      | typeError =>
        cases h
        exact ⟨fun x hx => A1 x hx,
          fun hh => absurd (A7 hh _ rfl) (by simp), news, hins1, hcont2, hshape⟩
      | storageError =>
        cases h
        exact ⟨fun x hx => A1 x hx,
          fun hh => absurd (A7 hh _ rfl) (by simp), news, hins1, hcont2, hshape⟩
  · rw [if_neg hbe] at h
    have hbl : 0 < buf.length := by
      cases buf with
      | nil => simp at hbe
      | cons a l => simp
    have hcontN : ∀ b ∈ news ++ [buf], ∀ x ∈ b, x.1 ∈ reviews.map Review.id := by
      intro b hb x hx
      rcases List.mem_append.mp hb with h1 | h2
      · exact hcont2 b h1 x hx
      · simp only [List.mem_singleton] at h2
        subst h2
        exact hbufc2 x hx
    have hshapeN : (∀ k, env.insertFail k = false) → 0 < p.batch_size →
        ∃ mids rem, news ++ [buf] = mids ++ rem ∧
          (∀ b ∈ mids, b.length = p.batch_size) ∧
          (rem = [] ∨ ∃ l, rem = [l] ∧ 0 < l.length ∧ l.length < p.batch_size) := by
      intro hh hbs
      obtain ⟨hszn, hlt⟩ := hsz (by simpa using hbs) hh
      exact ⟨news, [buf], rfl, hszn, Or.inr ⟨buf, rfl, hbl, hlt⟩⟩
    cases pend with
    | fall =>
      split at h
      next st3 e2 hins =>
        obtain ⟨hfail, _, hst3⟩ := insert_some _ _ _ _ _ hins
        subst hst3
        cases h
        exact ⟨fun x hx => A1 x hx, fun hh => absurd hfail (by simp [hh]), news, hins1,
          hcont2, fun hh _ => absurd hfail (by simp [hh])⟩
      next st3 hins =>
        obtain ⟨_, hst3⟩ := insert_none _ _ _ _ hins
        subst hst3
        cases h
        exact ⟨fun x hx => List.mem_append_left _ (A1 x hx), fun _ => Or.inl rfl,
          news ++ [buf],
            by show st1.inserts ++ [buf] = st.inserts ++ (news ++ [buf])
               rw [hins1, List.append_assoc], hcontN, hshapeN⟩
    | retNorm =>
      split at h
      next st3 e2 hins =>
        obtain ⟨hfail, _, hst3⟩ := insert_some _ _ _ _ _ hins
        subst hst3
        cases h
        exact ⟨fun x hx => A1 x hx, fun hh => absurd hfail (by simp [hh]), news, hins1,
          hcont2, fun hh _ => absurd hfail (by simp [hh])⟩
      next st3 hins =>
        obtain ⟨_, hst3⟩ := insert_none _ _ _ _ hins
        subst hst3
        cases h
        exact ⟨fun x hx => List.mem_append_left _ (A1 x hx), fun _ => Or.inr rfl,
          news ++ [buf],
            by show st1.inserts ++ [buf] = st.inserts ++ (news ++ [buf])
               rw [hins1, List.append_assoc], hcontN, hshapeN⟩
    | raised e =>
      cases e with
      | keyError =>
        split at h
        next st3 e2 hins =>
          obtain ⟨hfail, _, hst3⟩ := insert_some _ _ _ _ _ hins
          subst hst3
          cases h
          exact ⟨fun x hx => A1 x hx, fun hh => absurd hfail (by simp [hh]), news, hins1, hcont2, fun hh _ => absurd hfail (by simp [hh])⟩
        next st3 hins =>
          obtain ⟨_, hst3⟩ := insert_none _ _ _ _ hins
          subst hst3
          cases h
          exact ⟨fun x hx => List.mem_append_left _ (A1 x hx), fun _ => Or.inr rfl,
            news ++ [buf],
            by show st1.inserts ++ [buf] = st.inserts ++ (news ++ [buf])
               rw [hins1, List.append_assoc], hcontN, hshapeN⟩
      | valueError m =>
        split at h
        next st3 e2 hins =>
          obtain ⟨hfail, _, hst3⟩ := insert_some _ _ _ _ _ hins
          subst hst3
          cases h
          exact ⟨fun x hx => A1 x hx, fun hh => absurd hfail (by simp [hh]), news, hins1,
            hcont2, fun hh _ => absurd hfail (by simp [hh])⟩
        next st3 hins =>
          obtain ⟨_, hst3⟩ := insert_none _ _ _ _ hins
          subst hst3
          cases h
          exact ⟨fun x hx => List.mem_append_left _ (A1 x hx),
            fun hh => absurd (A7 hh _ rfl) (by simp),
            news ++ [buf],
            by show st1.inserts ++ [buf] = st.inserts ++ (news ++ [buf])
               rw [hins1, List.append_assoc], hcontN, hshapeN⟩
      | typeError =>
        split at h
        next st3 e2 hins =>
          obtain ⟨hfail, _, hst3⟩ := insert_some _ _ _ _ _ hins
          subst hst3
          cases h
          exact ⟨fun x hx => A1 x hx, fun hh => absurd hfail (by simp [hh]), news, hins1,
            hcont2, fun hh _ => absurd hfail (by simp [hh])⟩
        next st3 hins =>
          obtain ⟨_, hst3⟩ := insert_none _ _ _ _ hins
          subst hst3
          cases h
          exact ⟨fun x hx => List.mem_append_left _ (A1 x hx),
            fun hh => absurd (A7 hh _ rfl) (by simp),
            news ++ [buf],
            by show st1.inserts ++ [buf] = st.inserts ++ (news ++ [buf])
               rw [hins1, List.append_assoc], hcontN, hshapeN⟩
      | storageError =>
        split at h
        next st3 e2 hins =>
          obtain ⟨hfail, _, hst3⟩ := insert_some _ _ _ _ _ hins
          subst hst3
          cases h
          exact ⟨fun x hx => A1 x hx, fun hh => absurd hfail (by simp [hh]), news, hins1,
            hcont2, fun hh _ => absurd hfail (by simp [hh])⟩
        next st3 hins =>
          obtain ⟨_, hst3⟩ := insert_none _ _ _ _ hins
          subst hst3
          cases h
          exact ⟨fun x hx => List.mem_append_left _ (A1 x hx),
            fun hh => absurd (A7 hh _ rfl) (by simp),
            news ++ [buf],
            by show st1.inserts ++ [buf] = st.inserts ++ (news ++ [buf])
               rw [hins1, List.append_assoc], hcontN, hshapeN⟩

/-- Log behavior of one page iteration (when no exception escapes): either
the log is unchanged — the page fell through to the next page, or the page
`return`ed because a provider call raised — or exactly one row was appended,
with status `stopped_due_to_token_limit` or `failed_due_to_keyerror`, and
the run returned. -/
theorem runPage_log (env : Env) (p : Params) (reviews : List Review)
    (st st' : RunState) (res : PageResult)
    (h : runPage env p reviews st = (st', res)) (hres : ∀ e, res ≠ .escaped e) :
    (st'.log = st.log ∧ (res = .nextPage ∨
       (res = .finished ∧ ∃ k, env.prov k = .error () ∧ st'.provCalls = k + 1)))
    ∨ (∃ row : LogRow, st'.log = st.log ++ [row] ∧ res = .finished ∧
        (row.status = "stopped_due_to_token_limit" ∨
         row.status = "failed_due_to_keyerror")) := by
  rcases hpr : processReviews env p reviews st [] with ⟨st1, buf, pend⟩
  have PL := processReviews_log env p reviews st [] st1 buf pend hpr
  simp only [runPage, hpr] at h
  by_cases hbe : buf.isEmpty = true
  · rw [if_pos hbe] at h
    cases pend with
    | fall =>
      cases h
      rcases PL with ⟨hl, _⟩ | ⟨row, hlr, hstat, hpe⟩
      · exact Or.inl ⟨hl, Or.inl rfl⟩
      · exact nomatch hpe
    | retNorm =>
      cases h
      rcases PL with ⟨hl, hc⟩ | ⟨row, hlr, hstat, _⟩
      · rcases hc with h1 | ⟨e, h2⟩ | ⟨_, k, hk, hpc⟩
        · exact nomatch h1
        · exact nomatch h2
        · exact Or.inl ⟨hl, Or.inr ⟨rfl, k, hk, hpc⟩⟩
      · exact Or.inr ⟨row, hlr, rfl, Or.inl hstat⟩
    | raised e =>
      cases e with
      | keyError =>
        cases h
        rcases PL with ⟨hl, _⟩ | ⟨row, hlr, hstat, hpe⟩
        · exact Or.inr ⟨⟨"failed_due_to_keyerror", st1.total_input_tokens,
            st1.total_output_tokens, st1.total_requests⟩,
            by show st1.log ++ _ = st.log ++ _; rw [hl], rfl, Or.inr rfl⟩
        · exact nomatch hpe
      | valueError m => cases h; exact absurd rfl (hres _)
      | typeError => cases h; exact absurd rfl (hres _)
      | storageError => cases h; exact absurd rfl (hres _)
  · rw [if_neg hbe] at h
    cases pend with
    | fall =>
      split at h
      next st3 e2 hins => cases h; exact absurd rfl (hres _)
      next st3 hins =>
        obtain ⟨_, hst3⟩ := insert_none _ _ _ _ hins
        subst hst3
        cases h
        rcases PL with ⟨hl, _⟩ | ⟨row, hlr, hstat, hpe⟩
        · exact Or.inl ⟨hl, Or.inl rfl⟩
        · exact nomatch hpe
    | retNorm =>
      split at h
      next st3 e2 hins => cases h; exact absurd rfl (hres _)
      next st3 hins =>
        obtain ⟨_, hst3⟩ := insert_none _ _ _ _ hins
        subst hst3
        cases h
        rcases PL with ⟨hl, hc⟩ | ⟨row, hlr, hstat, _⟩
        · rcases hc with h1 | ⟨e, h2⟩ | ⟨_, k, hk, hpc⟩
          · exact nomatch h1
          · exact nomatch h2
          · exact Or.inl ⟨hl, Or.inr ⟨rfl, k, hk, hpc⟩⟩
        · exact Or.inr ⟨row, hlr, rfl, Or.inl hstat⟩
    | raised e =>
      cases e with
      | keyError =>
        split at h
        next st3 e2 hins => cases h; exact absurd rfl (hres _)
        next st3 hins =>
          obtain ⟨_, hst3⟩ := insert_none _ _ _ _ hins
          subst hst3
          cases h
          rcases PL with ⟨hl, _⟩ | ⟨row, hlr, hstat, hpe⟩
          · exact Or.inr ⟨⟨"failed_due_to_keyerror", st1.total_input_tokens,
              st1.total_output_tokens, st1.total_requests⟩,
              by show st1.log ++ _ = st.log ++ _; rw [hl], rfl, Or.inr rfl⟩
          · exact nomatch hpe
      | valueError m =>
        split at h
        next st3 e2 hins => cases h; exact absurd rfl (hres _)
        next st3 hins => cases h; exact absurd rfl (hres _)
      | typeError =>
        split at h
        next st3 e2 hins => cases h; exact absurd rfl (hres _)
        next st3 hins => cases h; exact absurd rfl (hres _)
      | storageError =>
        split at h
        next st3 e2 hins => cases h; exact absurd rfl (hres _)
        next st3 hins => cases h; exact absurd rfl (hres _)

/-- If the record loop of a page raised `KeyError`, the `except KeyError`
handler appends exactly one `failed_due_to_keyerror` row — carrying the
counter values at the failure — and the page `return`s (with a healthy
backend the `finally` flush cannot intervene). -/
theorem runPage_keyerror (env : Env) (p : Params) (reviews : List Review)
    (st st1 st' : RunState) (buf : List (ℕ × LabelResult)) (res : PageResult)
    (healthy : ∀ k, env.insertFail k = false)
    (hpr : processReviews env p reviews st [] = (st1, buf, .raised .keyError))
    (hrp : runPage env p reviews st = (st', res)) :
    res = .finished ∧ st'.log = st.log ++ [⟨"failed_due_to_keyerror",
      st1.total_input_tokens, st1.total_output_tokens, st1.total_requests⟩] := by
  have hl : st1.log = st.log := by
    rcases processReviews_log env p reviews st [] st1 buf _ hpr with
      ⟨hl, _⟩ | ⟨row, _, _, hpend⟩
    · exact hl
    · exact nomatch hpend
  simp only [runPage, hpr] at hrp
  by_cases hbe : buf.isEmpty = true
  · rw [if_pos hbe] at hrp
    cases hrp
    exact ⟨rfl, by show st1.log ++ _ = st.log ++ _; rw [hl]⟩
  · rw [if_neg hbe] at hrp
    split at hrp
    next st3 e2 hins =>
      obtain ⟨hfail, _, _⟩ := insert_some _ _ _ _ _ hins
      exact absurd hfail (by simp [healthy])
    next st3 hins =>
      obtain ⟨_, hst3⟩ := insert_none _ _ _ _ hins
      subst hst3
      cases hrp
      exact ⟨rfl, by show st1.log ++ _ = st.log ++ _; rw [hl]⟩

/-- With a healthy storage backend and the repository's limit validation
passing, the pagination loop always returns normally, whatever the provider
does: every raised exception is converted into a terminal state inside the
loop. -/
theorem makeLabelsFrom_exit_normal (env : Env) (p : Params)
    (healthy : ∀ k, env.insertFail k = false) (hpos : 0 < p.fecth_limit) :
    ∀ fuel i st, (makeLabelsFrom env p fuel i st).2 = .normal := by
  intro fuel
  induction fuel with
  | zero => intro i st; rfl
  | succ n ihf =>
    intro i st
    rw [makeLabelsFrom]
    simp only [repo_fetch_pos env st p.fecth_limit (i * p.fecth_limit) hpos]
    split
    · rfl
    · split
      next st1 hrp => exact ihf _ _
      next st1 hrp => rfl
      next st1 e hrp =>
        have hcl := (runPage_state env p _ st st1 (.escaped e) hrp).2.1 healthy
        rcases hcl with h1 | h1 <;> exact nomatch h1

/-- With a healthy storage backend, one run of the pagination loop appends at
most one usage-log row, and a row that is appended carries one of the three
terminal statuses written by the code. -/
theorem makeLabelsFrom_log (env : Env) (p : Params)
    (healthy : ∀ k, env.insertFail k = false) :
    ∀ fuel i st, ∃ rows, (makeLabelsFrom env p fuel i st).1.log = st.log ++ rows ∧
      (rows = [] ∨ ∃ row : LogRow, rows = [row] ∧
        (row.status = "completed" ∨ row.status = "stopped_due_to_token_limit" ∨
         row.status = "failed_due_to_keyerror")) := by
  intro fuel
  induction fuel with
  | zero => intro i st; exact ⟨[], by simp [makeLabelsFrom], Or.inl rfl⟩
  | succ n ihf =>
    intro i st
    rw [makeLabelsFrom]
    rcases hrepo : repo_get_unlabeled_reviews env st p.fecth_limit (i * p.fecth_limit)
      with e | reviews
    · simp only [hrepo]
      exact ⟨[], by simp, Or.inl rfl⟩
    · simp only [hrepo]
      split
      · exact ⟨[⟨"completed", st.total_input_tokens, st.total_output_tokens,
          st.total_requests⟩], rfl, Or.inr ⟨_, rfl, Or.inl rfl⟩⟩
      · split
        next st1 hrp =>
          have hne : ∀ e, PageResult.nextPage ≠ PageResult.escaped e := fun e he => nomatch he
          rcases runPage_log env p _ st st1 .nextPage hrp hne with ⟨hl, _⟩ | ⟨row, _, hfin, _⟩
          · obtain ⟨rows, hrows, hcase⟩ := ihf (i + 1) st1
            exact ⟨rows, by rw [hrows, hl], hcase⟩
          · exact nomatch hfin
        next st1 hrp =>
          have hne : ∀ e, PageResult.finished ≠ PageResult.escaped e := fun e he => nomatch he
          rcases runPage_log env p _ st st1 .finished hrp hne with ⟨hl, _⟩ |
            ⟨row, hlr, _, hstat⟩
          · exact ⟨[], by rw [hl]; simp, Or.inl rfl⟩
          · exact ⟨[row], hlr, Or.inr ⟨row, rfl, Or.inr hstat⟩⟩
        next st1 e hrp =>
          have hcl := (runPage_state env p _ st st1 (.escaped e) hrp).2.1 healthy
          rcases hcl with h1 | h1 <;> exact nomatch h1

theorem promptSum_succ_left (env : Env) (k n : ℕ) :
    promptSum env k (n + 1) = callPrompt env k + promptSum env (k + 1) n := by
  induction n with
  | zero => simp [promptSum]
  | succ m ihn =>
    rw [promptSum, ihn, promptSum]
    have hx : k + 1 + m = k + (m + 1) := by omega
    rw [hx]
    omega

theorem candSum_succ_left (env : Env) (k n : ℕ) :
    candSum env k (n + 1) = callCand env k + candSum env (k + 1) n := by
  induction n with
  | zero => simp [candSum]
  | succ m ihn =>
    rw [candSum, ihn, candSum]
    have hx : k + 1 + m = k + (m + 1) := by omega
    rw [hx]
    omega

/-- One successful record step of the record loop, with a healthy backend:
processing `r` advances the provider-call index, adds the reported usage to
the counters, buffers (and possibly flushes) the labeled row, and then either
stops on the token-limit check or continues with the rest of the page. -/
theorem processReviews_step (env : Env) (p : Params) (r : Review)
    (rest : List Review) (st : RunState) (buf : List (ℕ × LabelResult))
    (healthy : ∀ k, env.insertFail k = false)
    (hok : callOk env st.provCalls = true)
    (hbuf : buf.length < p.batch_size) :
    ∃ stA bufA,
      processReviews env p (r :: rest) st buf =
        (if stA.total_input_tokens > p.input_token_limit ∨
            stA.total_output_tokens > p.output_token_limit then
          (update_log stA "stopped_due_to_token_limit", bufA, Pending.retNorm)
        else processReviews env p rest stA bufA) ∧
      stA.provCalls = st.provCalls + 1 ∧
      stA.total_input_tokens = st.total_input_tokens + callPrompt env st.provCalls ∧
      stA.total_output_tokens = st.total_output_tokens + callCand env st.provCalls ∧
      stA.total_requests = st.total_requests + 1 ∧
      stA.log = st.log ∧
      bufA.length < p.batch_size ∧
      (∀ x ∈ st.labels, x ∈ stA.labels) ∧
      (∀ x ∈ buf, x ∈ stA.labels ∨ x ∈ bufA) ∧
      ((r.id, callLabel env st.provCalls) ∈ stA.labels ∨
        (r.id, callLabel env st.provCalls) ∈ bufA) := by
  unfold callOk at hok
  cases hprov : env.prov st.provCalls with
  | error e0 => simp only [hprov] at hok; exact nomatch hok
  | ok label =>
    simp only [hprov] at hok
    cases hu : label.metadata.usage_metadata with
    | none => simp only [hu] at hok; exact nomatch hok
    | some u =>
      simp only [hu] at hok
      cases hpt : u.prompt_token_count with
      | none => simp only [hpt] at hok; exact nomatch hok
      | some ptc =>
        cases hct : u.candidates_token_count with
        | none => simp only [hpt, hct] at hok; exact nomatch hok
        | some ctc =>
          have hcp : callPrompt env st.provCalls = ptc := by
            simp [callPrompt, hprov, hu, hpt]
          have hcc : callCand env st.provCalls = ctc := by
            simp [callCand, hprov, hu, hct]
          have hcl : callLabel env st.provCalls = label := by
            simp [callLabel, hprov]
          have hlen : (buf ++ [(r.id, label)]).length = buf.length + 1 := by simp
          rw [processReviews]
          simp only [hprov, hu, hpt, hct]
          by_cases hflush : (buf ++ [(r.id, label)]).length ≥ p.batch_size
          · rw [if_pos hflush]
            have hinsEq : insert_labels_batch env
                { st with provCalls := st.provCalls + 1,
                          total_input_tokens := st.total_input_tokens + ptc,
                          total_output_tokens := st.total_output_tokens + ctc,
                          total_requests := st.total_requests + 1 }
                (buf ++ [(r.id, label)]) =
                ({ st with provCalls := st.provCalls + 1,
                           total_input_tokens := st.total_input_tokens + ptc,
                           total_output_tokens := st.total_output_tokens + ctc,
                           total_requests := st.total_requests + 1,
                           labels := st.labels ++ (buf ++ [(r.id, label)]),
                           inserts := st.inserts ++ [buf ++ [(r.id, label)]],
                           insCalls := st.insCalls + 1 }, none) := by
              unfold insert_labels_batch
              rw [healthy]
              simp
            rw [hinsEq]
            refine ⟨_, [], rfl, rfl, by rw [hcp], by rw [hcc], rfl, rfl,
              by simpa using lt_of_le_of_lt (Nat.zero_le _) hbuf, ?_, ?_, ?_⟩
            · exact fun x hx => List.mem_append_left _ hx
            · exact fun x hx => Or.inl
                (List.mem_append_right _ (List.mem_append_left _ hx))
            · rw [hcl]
              exact Or.inl (List.mem_append_right _ (List.mem_append_right _ (by simp)))
          · rw [if_neg hflush]
            refine ⟨_, buf ++ [(r.id, label)], rfl, rfl, by rw [hcp], by rw [hcc],
              rfl, rfl, by omega, ?_, ?_, ?_⟩
            · exact fun x hx => hx
            · exact fun x hx => Or.inr (List.mem_append_left _ hx)
            · rw [hcl]
              exact Or.inr (List.mem_append_right _ (by simp))

/-- Running the record loop over the first `m` records of a page, when every
one of those calls succeeds with full usage metadata and never pushes the
counters over either token limit: the loop reaches the remaining records with
the counters advanced by the reported usage, the log untouched, and every
processed record's label persisted or still buffered. -/
theorem processReviews_prefix (env : Env) (p : Params)
    (healthy : ∀ k, env.insertFail k = false) :
    ∀ (m : ℕ) (reviews : List Review) (st : RunState) (buf : List (ℕ × LabelResult)),
      m ≤ reviews.length →
      buf.length < p.batch_size →
      (∀ i, i < m → callOk env (st.provCalls + i) = true) →
      (∀ i, i < m →
        st.total_input_tokens + promptSum env st.provCalls (i + 1) ≤ p.input_token_limit ∧
        st.total_output_tokens + candSum env st.provCalls (i + 1) ≤ p.output_token_limit) →
      ∃ st1 buf1,
        processReviews env p reviews st buf =
          processReviews env p (reviews.drop m) st1 buf1 ∧
        st1.provCalls = st.provCalls + m ∧
        st1.total_input_tokens = st.total_input_tokens + promptSum env st.provCalls m ∧
        st1.total_output_tokens = st.total_output_tokens + candSum env st.provCalls m ∧
        st1.total_requests = st.total_requests + m ∧
        st1.log = st.log ∧
        buf1.length < p.batch_size ∧
        (∀ x ∈ st.labels, x ∈ st1.labels) ∧
        (∀ x ∈ buf, x ∈ st1.labels ∨ x ∈ buf1) ∧
        (∀ i, i < m →
          ((reviews.getD i dummyReview).id, callLabel env (st.provCalls + i)) ∈ st1.labels ∨
          ((reviews.getD i dummyReview).id, callLabel env (st.provCalls + i)) ∈ buf1) := by
  intro m
  induction m with
  | zero =>
    intro reviews st buf _ hbuf _ _
    exact ⟨st, buf, by rw [List.drop_zero], by simp [promptSum], by simp [promptSum],
      by simp [candSum], by simp, rfl, hbuf, fun x hx => hx, fun x hx => Or.inr hx,
      fun i hi => absurd hi (Nat.not_lt_zero i)⟩
  | succ m ihm =>
    intro reviews st buf hm hbuf hok hbud
    cases reviews with
    | nil => simp at hm
    | cons r rest =>
      obtain ⟨stA, bufA, heq, hApc, hAin, hAout, hAreq, hAlog, hAbuf, hAlab,
        hAbufmem, hArec⟩ :=
        processReviews_step env p r rest st buf healthy
          (by simpa using hok 0 (Nat.succ_pos m)) hbuf
      have hps1 : promptSum env st.provCalls 1 = callPrompt env st.provCalls := by
        simp [promptSum]
      have hcs1 : candSum env st.provCalls 1 = callCand env st.provCalls := by
        simp [candSum]
      have hb0 := hbud 0 (Nat.succ_pos m)
      have hnot : ¬(stA.total_input_tokens > p.input_token_limit ∨
          stA.total_output_tokens > p.output_token_limit) := by
        rw [hAin, hAout]
        rw [hps1] at hb0
        rw [hcs1] at hb0
        omega
      rw [if_neg hnot] at heq
      have hmlen : m ≤ rest.length := by
        simpa using hm
      have hokS : ∀ i, i < m → callOk env (stA.provCalls + i) = true := by
        intro i hi
        rw [hApc]
        have hx : st.provCalls + 1 + i = st.provCalls + (i + 1) := by omega
        rw [hx]
        exact hok (i + 1) (by omega)
      have hbudS : ∀ i, i < m →
          stA.total_input_tokens + promptSum env stA.provCalls (i + 1) ≤
            p.input_token_limit ∧
          stA.total_output_tokens + candSum env stA.provCalls (i + 1) ≤
            p.output_token_limit := by
        intro i hi
        have hb := hbud (i + 1) (by omega)
        have hsp := promptSum_succ_left env st.provCalls (i + 1)
        have hsc := candSum_succ_left env st.provCalls (i + 1)
        rw [hApc, hAin, hAout]
        constructor
        · omega
        · omega
      obtain ⟨st1, buf1, heq2, h1pc, h1in, h1out, h1req, h1log, h1buf, h1lab,
        h1bufmem, h1rec⟩ := ihm rest stA bufA hmlen hAbuf hokS hbudS
      refine ⟨st1, buf1, ?_, ?_, ?_, ?_, ?_, ?_, h1buf, ?_, ?_, ?_⟩
      · rw [heq, heq2, List.drop_succ_cons]
      · rw [h1pc, hApc]
        omega
      · rw [h1in, hAin, promptSum_succ_left env st.provCalls m, hApc]
        omega
      · rw [h1out, hAout, candSum_succ_left env st.provCalls m, hApc]
        omega
      · rw [h1req, hAreq]
        omega
      · rw [h1log, hAlog]
      · exact fun x hx => h1lab x (hAlab x hx)
      · intro x hx
        rcases hAbufmem x hx with h1 | h2
        · exact Or.inl (h1lab x h1)
        · exact h1bufmem x h2
      · intro i hi
        cases i with
        | zero =>
          simp only [List.getD_cons_zero, Nat.add_zero]
          rcases hArec with h1 | h2
          · exact Or.inl (h1lab _ h1)
          · exact h1bufmem _ h2
        | succ i' =>
          have hx : st.provCalls + (i' + 1) = stA.provCalls + i' := by
            rw [hApc]; omega
          rw [List.getD_cons_succ, hx]
          exact h1rec i' (by omega)

/-- Fail-fast on a provider error, at page level: if the first `j` records of
a page are labeled cleanly (within budget) and the provider raises on the
next call, the page returns (the run stops), the provider was called exactly
`j + 1` times, no usage-log row is appended, and every one of the `j` labels
produced before the error is persisted by a bulk insert before control
returns. -/
theorem runPage_provider_error (env : Env) (p : Params) (reviews : List Review)
    (st st' : RunState) (res : PageResult) (j : ℕ)
    (healthy : ∀ k, env.insertFail k = false) (hbs : 0 < p.batch_size)
    (hj : j < reviews.length)
    (hok : ∀ i, i < j → callOk env (st.provCalls + i) = true)
    (hbud : ∀ i, i < j →
      st.total_input_tokens + promptSum env st.provCalls (i + 1) ≤ p.input_token_limit ∧
      st.total_output_tokens + candSum env st.provCalls (i + 1) ≤ p.output_token_limit)
    (herr : env.prov (st.provCalls + j) = .error ())
    (h : runPage env p reviews st = (st', res)) :
    res = .finished ∧ st'.provCalls = st.provCalls + j + 1 ∧ st'.log = st.log ∧
    ∀ i, i < j →
      ((reviews.getD i dummyReview).id, callLabel env (st.provCalls + i)) ∈ st'.labels := by
  obtain ⟨st1, buf1, heq, h1pc, _, _, _, h1log, h1buf, h1lab, h1bufmem, h1rec⟩ :=
    processReviews_prefix env p healthy j reviews st [] (le_of_lt hj)
      (by simpa using hbs) hok hbud
  rw [List.drop_eq_getElem_cons hj] at heq
  have herr1 : env.prov st1.provCalls = .error () := by rw [h1pc]; exact herr
  rw [processReviews] at heq
  simp only [herr1] at heq
  simp only [runPage, heq] at h
  have hrec1 : ∀ i, i < j →
      ((reviews.getD i dummyReview).id, callLabel env (st.provCalls + i)) ∈ st1.labels ∨
      ((reviews.getD i dummyReview).id, callLabel env (st.provCalls + i)) ∈ buf1 :=
    h1rec
  by_cases hbe : buf1.isEmpty = true
  · rw [if_pos hbe] at h
    cases h
    have hb1nil : buf1 = [] := by
      cases buf1 with
      | nil => rfl
      | cons a l => simp at hbe
    refine ⟨rfl, ?_, h1log, ?_⟩
    · show st1.provCalls + 1 = st.provCalls + j + 1
      omega
    · intro i hi
      rcases hrec1 i hi with h1 | h2
      · exact h1
      · rw [hb1nil] at h2
        exact absurd h2 (List.not_mem_nil _)
  · rw [if_neg hbe] at h
    split at h
    next st3 e2 hins =>
      obtain ⟨hfail, _, _⟩ := insert_some _ _ _ _ _ hins
      exact absurd hfail (by simp [healthy])
    next st3 hins =>
      obtain ⟨_, hst3⟩ := insert_none _ _ _ _ hins
      subst hst3
      cases h
      refine ⟨rfl, ?_, h1log, ?_⟩
      · show st1.provCalls + 1 = st.provCalls + j + 1
        omega
      · intro i hi
        rcases hrec1 i hi with h1 | h2
        · exact List.mem_append_left _ h1
        · exact List.mem_append_right _ h2

/-- Token-budget stop, at page level: if the first `j` records of a page are
labeled cleanly within budget, the `(j+1)`-st call also succeeds and its
usage pushes a counter strictly over its limit, then the run stops right
after that call (even mid-page): the provider was called exactly `j + 1`
times, one `stopped_due_to_token_limit` row with the page-cumulative counter
values is appended, and all `j + 1` labels are persisted before control
returns. -/
theorem runPage_budget_stop (env : Env) (p : Params) (reviews : List Review)
    (st st' : RunState) (res : PageResult) (j : ℕ)
    (healthy : ∀ k, env.insertFail k = false) (hbs : 0 < p.batch_size)
    (hj : j < reviews.length)
    (hok : ∀ i, i ≤ j → callOk env (st.provCalls + i) = true)
    (hbud : ∀ i, i < j →
      st.total_input_tokens + promptSum env st.provCalls (i + 1) ≤ p.input_token_limit ∧
      st.total_output_tokens + candSum env st.provCalls (i + 1) ≤ p.output_token_limit)
    (hexc : p.input_token_limit <
        st.total_input_tokens + promptSum env st.provCalls (j + 1) ∨
      p.output_token_limit <
        st.total_output_tokens + candSum env st.provCalls (j + 1))
    (h : runPage env p reviews st = (st', res)) :
    res = .finished ∧ st'.provCalls = st.provCalls + j + 1 ∧
    st'.log = st.log ++ [⟨"stopped_due_to_token_limit",
      st.total_input_tokens + promptSum env st.provCalls (j + 1),
      st.total_output_tokens + candSum env st.provCalls (j + 1),
      st.total_requests + (j + 1)⟩] ∧
    ∀ i, i ≤ j →
      ((reviews.getD i dummyReview).id, callLabel env (st.provCalls + i)) ∈ st'.labels := by
  obtain ⟨st1, buf1, heq, h1pc, h1in, h1out, h1req, h1log, h1buf, h1lab,
    h1bufmem, h1rec⟩ :=
    processReviews_prefix env p healthy j reviews st [] (le_of_lt hj)
      (by simpa using hbs) (fun i hi => hok i (le_of_lt hi)) hbud
  rw [List.drop_eq_getElem_cons hj] at heq
  obtain ⟨stA, bufA, heqA, hApc, hAin, hAout, hAreq, hAlog, hAbuf, hAlab,
    hAbufmem, hArec⟩ :=
    processReviews_step env p (reviews[j]) (reviews.drop (j + 1)) st1 buf1 healthy
      (by rw [h1pc]; exact hok j (le_refl j)) h1buf
  have hin2 : stA.total_input_tokens =
      st.total_input_tokens + promptSum env st.provCalls (j + 1) := by
    rw [hAin, h1in, h1pc, promptSum]
    omega
  have hout2 : stA.total_output_tokens =
      st.total_output_tokens + candSum env st.provCalls (j + 1) := by
    rw [hAout, h1out, h1pc, candSum]
    omega
  have hreq2 : stA.total_requests = st.total_requests + (j + 1) := by
    rw [hAreq, h1req]
    omega
  have hAlog2 : stA.log = st.log := by rw [hAlog, h1log]
  have hcond : stA.total_input_tokens > p.input_token_limit ∨
      stA.total_output_tokens > p.output_token_limit := by
    rw [hin2, hout2]
    exact hexc
  rw [if_pos hcond] at heqA
  rw [heqA] at heq
  simp only [runPage, heq] at h
  have hrecA : ∀ i, i ≤ j →
      ((reviews.getD i dummyReview).id, callLabel env (st.provCalls + i)) ∈ stA.labels ∨
      ((reviews.getD i dummyReview).id, callLabel env (st.provCalls + i)) ∈ bufA := by
    intro i hi
    rcases Nat.lt_or_ge i j with hlt | hge
    · rcases h1rec i hlt with h1 | h2
      · exact Or.inl (hAlab _ h1)
      · exact hAbufmem _ h2
    · have hij : i = j := by omega
      subst hij
      have hgd : reviews.getD i dummyReview = reviews[i] :=
        List.getD_eq_getElem _ _ hj
      rw [hgd]
      have hcli : callLabel env (st.provCalls + i) = callLabel env st1.provCalls := by
        rw [h1pc]
      rw [hcli]
      exact hArec
  have hlogEq : (update_log stA "stopped_due_to_token_limit").log =
      st.log ++ [⟨"stopped_due_to_token_limit",
        st.total_input_tokens + promptSum env st.provCalls (j + 1),
        st.total_output_tokens + candSum env st.provCalls (j + 1),
        st.total_requests + (j + 1)⟩] := by
    show stA.log ++ [⟨"stopped_due_to_token_limit", stA.total_input_tokens,
      stA.total_output_tokens, stA.total_requests⟩] = _
    rw [hAlog2, hin2, hout2, hreq2]
  by_cases hbe : bufA.isEmpty = true
  · rw [if_pos hbe] at h
    cases h
    have hbAnil : bufA = [] := by
      cases bufA with
      | nil => rfl
      | cons a l => simp at hbe
    refine ⟨rfl, ?_, hlogEq, ?_⟩
    · show stA.provCalls = st.provCalls + j + 1
      omega
    · intro i hi
      rcases hrecA i hi with h1 | h2
      · exact h1
      · rw [hbAnil] at h2
        exact absurd h2 (List.not_mem_nil _)
  · rw [if_neg hbe] at h
    split at h
    next st3 e2 hins =>
      obtain ⟨hfail, _, _⟩ := insert_some _ _ _ _ _ hins
      exact absurd hfail (by simp [healthy])
    next st3 hins =>
      obtain ⟨_, hst3⟩ := insert_none _ _ _ _ hins
      subst hst3
      cases h
      refine ⟨rfl, ?_, hlogEq, ?_⟩
      · show stA.provCalls = st.provCalls + j + 1
        omega
      · intro i hi
        rcases hrecA i hi with h1 | h2
        · exact List.mem_append_left _ h1
        · exact List.mem_append_right _ h2

/-! ## The provider validation contract -/

theorem checkScores_spec (resp : String) :
    ∀ ss : List JValue,
      (checkScores resp ss = .ok () ↔ ss.all scoreOkB = true) ∧
      (∀ e, checkScores resp ss = .error e →
        e = .typeError ∨
        e = .valueError ("Scores must be between -1.0 and 1.0 or null, " ++ resp)) := by
  intro ss
  induction ss with
  | nil =>
    refine ⟨by simp [checkScores], ?_⟩
    intro e he
    simp [checkScores] at he
  | cons s rest ihs =>
    obtain ⟨ih1, ih2⟩ := ihs
    cases s with
    | null =>
      refine ⟨?_, ?_⟩
      · simpa [checkScores, scoreOkB] using ih1
      · intro e he
        exact ih2 e he
    | num q =>
      by_cases hq : -1 ≤ q ∧ q ≤ 1
      · refine ⟨?_, ?_⟩
        · simp only [checkScores, asNum, if_pos hq, List.all_cons, scoreOkB]
          simp [ih1, hq]
        · intro e he
          simp only [checkScores, asNum, if_pos hq] at he
          exact ih2 e he
      · refine ⟨?_, ?_⟩
        · simp only [checkScores, asNum, if_neg hq, List.all_cons, scoreOkB]
          simp [hq]
        · intro e he
          simp only [checkScores, asNum, if_neg hq] at he
          cases he
          exact Or.inr rfl
    | bool b =>
      by_cases hq : -1 ≤ (if b then (1 : ℚ) else 0) ∧ (if b then (1 : ℚ) else 0) ≤ 1
      · refine ⟨?_, ?_⟩
        · simp only [checkScores, asNum, if_pos hq, List.all_cons, scoreOkB]
          simp [ih1, hq]
        · intro e he
          simp only [checkScores, asNum, if_pos hq] at he
          exact ih2 e he
      · exact absurd (by cases b <;> norm_num) hq
    | str t =>
      refine ⟨?_, ?_⟩
      · simp [checkScores, asNum, scoreOkB]
      · intro e he
        simp only [checkScores, asNum] at he
        cases he
        exact Or.inl rfl
    | arr xs =>
      refine ⟨?_, ?_⟩
      · simp [checkScores, asNum, scoreOkB]
      · intro e he
        simp only [checkScores, asNum] at he
        cases he
        exact Or.inl rfl
    | obj kvs =>
      refine ⟨?_, ?_⟩
      · simp [checkScores, asNum, scoreOkB]
      · intro e he
        simp only [checkScores, asNum] at he
        cases he
        exact Or.inl rfl

theorem checkConfs_spec (resp : String) :
    ∀ cs : List JValue,
      (checkConfs resp cs = .ok () ↔ cs.all confOkB = true) ∧
      (∀ e, checkConfs resp cs = .error e →
        e = .typeError ∨
        e = .valueError ("Confidences must be between 0.0 and 1.0, " ++ resp)) := by
  intro cs
  induction cs with
  | nil =>
    refine ⟨by simp [checkConfs], ?_⟩
    intro e he
    simp [checkConfs] at he
  | cons c rest ihs =>
    obtain ⟨ih1, ih2⟩ := ihs
    cases hn : asNum c with
    | none =>
      refine ⟨?_, ?_⟩
      · simp [checkConfs, hn, confOkB]
      · intro e he
        simp only [checkConfs, hn] at he
        cases he
        exact Or.inl rfl
    | some q =>
      by_cases hq : 0 ≤ q ∧ q ≤ 1
      · refine ⟨?_, ?_⟩
        · simp only [checkConfs, hn, if_pos hq, List.all_cons, confOkB]
          simp [ih1, hq]
        · intro e he
          simp only [checkConfs, hn, if_pos hq] at he
          exact ih2 e he
      · refine ⟨?_, ?_⟩
        · simp only [checkConfs, hn, if_neg hq, List.all_cons, confOkB]
          simp [hq]
        · intro e he
          simp only [checkConfs, hn, if_neg hq] at he
          cases he
          exact Or.inr rfl

/-- On success, `parser_label` returns exactly the two decoded lists, whose
lengths match the aspect count. -/
theorem parser_label_ok (aspects : List String) (decode : String → Option JValue)
    (response : String) (ss cs : List JValue)
    (h : parser_label aspects decode response = .ok (ss, cs)) :
    decode response = some (.arr [.arr ss, .arr cs]) ∧
    ss.length = aspects.length ∧ cs.length = aspects.length := by
  unfold parser_label at h
  split at h
  · exact nomatch h
  · split at h
    · rename_i a b heq
      split at h
      · rename_i scores confidences
        split at h
        · rename_i hlen
          split at h
          · exact nomatch h
          · split at h
            · exact nomatch h
            · cases h
              exact ⟨heq, hlen.1, hlen.2⟩
        · exact nomatch h
      · exact nomatch h
    · exact nomatch h

/-- C6 (amended): `parser_label` returns a (scores, confidences) pair iff the
response decodes as a JSON list of exactly two lists of length equal to the
aspect count with every score null or in [-1.0, 1.0] and every confidence a
number in [0.0, 1.0]; any violation raises and produces no pair, the raised
error being a `ValueError` whose message names the failed rule and ends with
the offending raw text — except that a null (or otherwise non-numeric)
confidence, or a non-null non-numeric score, raises a bare `TypeError` from
the range comparison instead. -/
theorem parser_label_valid_iff (aspects : List String)
    (decode : String → Option JValue) (response : String) :
    ((∃ pr, parser_label aspects decode response = .ok pr) ↔
      specValidResponse aspects decode response = true) ∧
    (∀ e, parser_label aspects decode response = .error e →
      e = .typeError ∨ ∃ rule, e = .valueError (rule ++ response)) := by
  cases hd : decode response with
  | none =>
    constructor
    · constructor
      · rintro ⟨pr, hpr⟩
        simp [parser_label, hd] at hpr
      · intro hv
        simp [specValidResponse, hd] at hv
    · intro e he
      simp only [parser_label, hd] at he
      cases he
      exact Or.inr ⟨_, rfl⟩
  | some parsed =>
    have leaf : (∀ pr, parser_label aspects decode response ≠ .ok pr) →
        (specValidResponse aspects decode response ≠ true) →
        (∀ e, parser_label aspects decode response = .error e →
          e = .typeError ∨ ∃ rule, e = .valueError (rule ++ response)) →
        ((∃ pr, parser_label aspects decode response = .ok pr) ↔
          specValidResponse aspects decode response = true) ∧
        (∀ e, parser_label aspects decode response = .error e →
          e = .typeError ∨ ∃ rule, e = .valueError (rule ++ response)) := by
      intro h1 h2 h3
      exact ⟨⟨fun hx => hx.elim fun pr hpr => absurd hpr (h1 pr), fun hv => absurd hv h2⟩, h3⟩
    rcases parsed with _ | b0 | q0 | t0 | xs | kvs
    case null =>
      refine leaf ?_ ?_ ?_
      · intro pr hpr
        simp [parser_label, hd] at hpr
      · intro hv
        simp [specValidResponse, hd] at hv
      · intro e he
        simp only [parser_label, hd] at he
        cases he
        exact Or.inr ⟨_, rfl⟩
    case bool =>
      refine leaf ?_ ?_ ?_
      · intro pr hpr
        simp [parser_label, hd] at hpr
      · intro hv
        simp [specValidResponse, hd] at hv
      · intro e he
        simp only [parser_label, hd] at he
        cases he
        exact Or.inr ⟨_, rfl⟩
    case num =>
      refine leaf ?_ ?_ ?_
      · intro pr hpr
        simp [parser_label, hd] at hpr
      · intro hv
        simp [specValidResponse, hd] at hv
      · intro e he
        simp only [parser_label, hd] at he
        cases he
        exact Or.inr ⟨_, rfl⟩
    case str =>
      refine leaf ?_ ?_ ?_
      · intro pr hpr
        simp [parser_label, hd] at hpr
      · intro hv
        simp [specValidResponse, hd] at hv
      · intro e he
        simp only [parser_label, hd] at he
        cases he
        exact Or.inr ⟨_, rfl⟩
    case obj =>
      refine leaf ?_ ?_ ?_
      · intro pr hpr
        simp [parser_label, hd] at hpr
      · intro hv
        simp [specValidResponse, hd] at hv
      · intro e he
        simp only [parser_label, hd] at he
        cases he
        exact Or.inr ⟨_, rfl⟩
    case arr =>
      rcases xs with _ | ⟨a, _ | ⟨b, _ | ⟨c, rest⟩⟩⟩
      · refine leaf ?_ ?_ ?_
        · intro pr hpr
          simp [parser_label, hd] at hpr
        · intro hv
          simp [specValidResponse, hd] at hv
        · intro e he
          simp only [parser_label, hd] at he
          cases he
          exact Or.inr ⟨_, rfl⟩
      · refine leaf ?_ ?_ ?_
        · intro pr hpr
          simp [parser_label, hd] at hpr
        · intro hv
          simp [specValidResponse, hd] at hv
        · intro e he
          simp only [parser_label, hd] at he
          cases he
          exact Or.inr ⟨_, rfl⟩
      · cases ha : a with
        | arr ss0 =>
          cases hb : b with
          | arr cs0 =>
            subst ha
            subst hb
            constructor
            · by_cases hlen : ss0.length = aspects.length ∧ cs0.length = aspects.length
              · cases hcs : checkScores response ss0 with
                | error e2 =>
                  have hnall : ss0.all scoreOkB = false := by
                    by_cases hall : ss0.all scoreOkB = true
                    · have hok := (checkScores_spec response ss0).1.mpr hall
                      rw [hok] at hcs
                      exact nomatch hcs
                    · simpa using hall
                  constructor
                  · rintro ⟨pr, hpr⟩
                    simp only [parser_label, hd] at hpr
                    rw [if_pos hlen, hcs] at hpr
                    exact nomatch hpr
                  · intro hv
                    simp [specValidResponse, hd, hnall] at hv
                | ok u =>
                  cases u
                  have hall : ss0.all scoreOkB = true :=
                    (checkScores_spec response ss0).1.mp hcs
                  cases hcc : checkConfs response cs0 with
                  | error e2 =>
                    have hnall : cs0.all confOkB = false := by
                      by_cases hallc : cs0.all confOkB = true
                      · have hok := (checkConfs_spec response cs0).1.mpr hallc
                        rw [hok] at hcc
                        exact nomatch hcc
                      · simpa using hallc
                    constructor
                    · rintro ⟨pr, hpr⟩
                      simp only [parser_label, hd] at hpr
                      rw [if_pos hlen, hcs, hcc] at hpr
                      exact nomatch hpr
                    · intro hv
                      simp [specValidResponse, hd, hnall] at hv
                  | ok u2 =>
                    cases u2
                    have hallc : cs0.all confOkB = true :=
                      (checkConfs_spec response cs0).1.mp hcc
                    constructor
                    · intro _
                      simp [specValidResponse, hd, hall, hallc, hlen.1, hlen.2]
                    · intro _
                      refine ⟨(ss0, cs0), ?_⟩
                      simp only [parser_label, hd]
                      rw [if_pos hlen, hcs, hcc]
              · constructor
                · rintro ⟨pr, hpr⟩
                  simp only [parser_label, hd] at hpr
                  rw [if_neg hlen] at hpr
                  exact nomatch hpr
                · intro hv
                  simp only [specValidResponse, hd] at hv
                  simp only [Bool.and_eq_true, beq_iff_eq] at hv
                  exact absurd ⟨hv.1.1.1, hv.1.1.2⟩ hlen
            · intro e he
              simp only [parser_label, hd] at he
              by_cases hlen : ss0.length = aspects.length ∧ cs0.length = aspects.length
              · rw [if_pos hlen] at he
                cases hcs : checkScores response ss0 with
                | error e2 =>
                  rw [hcs] at he
                  cases he
                  rcases (checkScores_spec response ss0).2 _ hcs with h1 | h1
                  · exact Or.inl h1
                  · exact Or.inr ⟨_, h1⟩
                | ok u =>
                  cases u
                  rw [hcs] at he
                  cases hcc : checkConfs response cs0 with
                  | error e2 =>
                    rw [hcc] at he
                    cases he
                    rcases (checkConfs_spec response cs0).2 _ hcc with h1 | h1
                    · exact Or.inl h1
                    · exact Or.inr ⟨_, h1⟩
                  | ok u2 =>
                    cases u2
                    rw [hcc] at he
                    exact nomatch he
              · rw [if_neg hlen] at he
                cases he
                exact Or.inr ⟨_, rfl⟩
          | null =>
            subst ha; subst hb
            refine leaf ?_ ?_ ?_
            · intro pr hpr
              simp [parser_label, hd] at hpr
            · intro hv
              simp [specValidResponse, hd] at hv
            · intro e he
              simp only [parser_label, hd] at he
              cases he
              exact Or.inr ⟨_, rfl⟩
          | bool b2 =>
            subst ha; subst hb
            refine leaf ?_ ?_ ?_
            · intro pr hpr
              simp [parser_label, hd] at hpr
            · intro hv
              simp [specValidResponse, hd] at hv
            · intro e he
              simp only [parser_label, hd] at he
              cases he
              exact Or.inr ⟨_, rfl⟩
          | num q2 =>
            subst ha; subst hb
            refine leaf ?_ ?_ ?_
            · intro pr hpr
              simp [parser_label, hd] at hpr
            · intro hv
              simp [specValidResponse, hd] at hv
            · intro e he
              simp only [parser_label, hd] at he
              cases he
              exact Or.inr ⟨_, rfl⟩
          | str t2 =>
            subst ha; subst hb
            refine leaf ?_ ?_ ?_
            · intro pr hpr
              simp [parser_label, hd] at hpr
            · intro hv
              simp [specValidResponse, hd] at hv
            · intro e he
              simp only [parser_label, hd] at he
              cases he
              exact Or.inr ⟨_, rfl⟩
          | obj kv2 =>
            subst ha; subst hb
            refine leaf ?_ ?_ ?_
            · intro pr hpr
              simp [parser_label, hd] at hpr
            · intro hv
              simp [specValidResponse, hd] at hv
            · intro e he
              simp only [parser_label, hd] at he
              cases he
              exact Or.inr ⟨_, rfl⟩
        | null =>
          subst ha
          refine leaf ?_ ?_ ?_
          · intro pr hpr
            simp [parser_label, hd] at hpr
          · intro hv
            simp [specValidResponse, hd] at hv
          · intro e he
            simp only [parser_label, hd] at he
            cases he
            exact Or.inr ⟨_, rfl⟩
        | bool b2 =>
          subst ha
          refine leaf ?_ ?_ ?_
          · intro pr hpr
            simp [parser_label, hd] at hpr
          · intro hv
            simp [specValidResponse, hd] at hv
          · intro e he
            simp only [parser_label, hd] at he
            cases he
            exact Or.inr ⟨_, rfl⟩
        | num q2 =>
          subst ha
          refine leaf ?_ ?_ ?_
          · intro pr hpr
            simp [parser_label, hd] at hpr
          · intro hv
            simp [specValidResponse, hd] at hv
          · intro e he
            simp only [parser_label, hd] at he
            cases he
            exact Or.inr ⟨_, rfl⟩
        | str t2 =>
          subst ha
          refine leaf ?_ ?_ ?_
          · intro pr hpr
            simp [parser_label, hd] at hpr
          · intro hv
            simp [specValidResponse, hd] at hv
          · intro e he
            simp only [parser_label, hd] at he
            cases he
            exact Or.inr ⟨_, rfl⟩
        | obj kv2 =>
          subst ha
          refine leaf ?_ ?_ ?_
          · intro pr hpr
            simp [parser_label, hd] at hpr
          · intro hv
            simp [specValidResponse, hd] at hv
          · intro e he
            simp only [parser_label, hd] at he
            cases he
            exact Or.inr ⟨_, rfl⟩
      · refine leaf ?_ ?_ ?_
        · intro pr hpr
          simp [parser_label, hd] at hpr
        · intro hv
          simp [specValidResponse, hd] at hv
        · intro e he
          simp only [parser_label, hd] at he
          cases he
          exact Or.inr ⟨_, rfl⟩

/-- Python dict assignment appends when the key is not yet present. -/
theorem dictInsert_not_mem (d : List (String × ScoreConf)) (a : String)
    (v : ScoreConf) (h : ∀ kv ∈ d, kv.1 ≠ a) :
    dictInsert d a v = d ++ [(a, v)] := by
  unfold dictInsert
  rw [if_neg]
  intro hc
  rcases List.any_eq_true.mp hc with ⟨kv, hkv, hbeq⟩
  exact h kv hkv (by simpa using hbeq)

/-- The `enumerate` loop of `process_label` over distinct aspect names whose
index never runs past the score/confidence lists produces the positional zip,
appended to the accumulated dict. -/
theorem buildLabelsAux_eq (ss cs : List JValue) :
    ∀ (as : List String) (i : ℕ) (d : List (String × ScoreConf)),
      as.Nodup →
      (∀ a ∈ as, ∀ kv ∈ d, kv.1 ≠ a) →
      as.length + i ≤ ss.length →
      as.length + i ≤ cs.length →
      buildLabelsAux ss cs d i as =
        d ++ (as.zip ((ss.drop i).zip (cs.drop i))).map
          (fun a => (a.1, ⟨a.2.1, a.2.2⟩)) := by
  intro as
  induction as with
  | nil =>
    intro i d _ _ _ _
    simp [buildLabelsAux]
  | cons a as' iha =>
    intro i d hnd hdisj hss hcs
    have hiss : i < ss.length := by
      simp only [List.length_cons] at hss
      omega
    have hics : i < cs.length := by
      simp only [List.length_cons] at hcs
      omega
    have hnd' : as'.Nodup := hnd.of_cons
    have hnotmem : a ∉ as' := (List.nodup_cons.mp hnd).1
    have hdisj' : ∀ a' ∈ as',
        ∀ kv ∈ d ++ [(a, (⟨ss.getD i .null, cs.getD i .null⟩ : ScoreConf))],
          kv.1 ≠ a' := by
      intro a' ha' kv hkv
      rcases List.mem_append.mp hkv with h1 | h2
      · exact hdisj a' (List.mem_cons_of_mem _ ha') kv h1
      · simp only [List.mem_singleton] at h2
        subst h2
        intro hcontra
        have ha2 : a = a' := hcontra
        exact hnotmem (ha2 ▸ ha')
    have hss' : as'.length + (i + 1) ≤ ss.length := by
      simp only [List.length_cons] at hss
      omega
    have hcs' : as'.length + (i + 1) ≤ cs.length := by
      simp only [List.length_cons] at hcs
      omega
    rw [buildLabelsAux,
      dictInsert_not_mem d a _ (fun kv hkv => hdisj a (List.mem_cons_self a as') kv hkv),
      iha (i + 1) _ hnd' hdisj' hss' hcs',
      List.drop_eq_getElem_cons hiss, List.drop_eq_getElem_cons hics,
      List.getD_eq_getElem ss JValue.null hiss, List.getD_eq_getElem cs JValue.null hics]
    simp only [List.zip_cons_cons, List.map_cons, List.append_assoc, List.singleton_append]

/-- With distinct aspect names and score/confidence lists of the aspect
count's length (as `parser_label` guarantees), the `labels` dict built by
`process_label` is exactly the positional zip in aspect order. -/
theorem buildLabels_zip (aspects : List String) (ss cs : List JValue)
    (hnd : aspects.Nodup) (hss : ss.length = aspects.length)
    (hcs : cs.length = aspects.length) :
    buildLabels aspects ss cs = specZipLabels aspects ss cs := by
  unfold buildLabels specZipLabels
  rw [buildLabelsAux_eq ss cs aspects 0 [] hnd (by simp) (by omega) (by omega)]
  simp

/-! ## Claim theorems -/

/-- C1 (code bug): a batch of four unlabeled reviews scanned with
`fecth_limit = 2` terminates with status `completed` after only two provider
calls, leaving reviews 3 and 4 unlabeled: because labeled records leave the
`labels is null` result set while the offset still advances by
`i * fecth_limit`, the second fetch skips the remaining unlabeled records and
returns an empty page.  The claim (and the loop's own comment, "to ensure all
reviews are processed") requires that `completed` implies no unlabeled record
was skipped. -/
theorem make_labels_offset_skips_unlabeled :
    (make_labels envFour pFetch2 initState).2 = .normal ∧
    (make_labels envFour pFetch2 initState).1.log.map LogRow.status = ["completed"] ∧
    (make_labels envFour pFetch2 initState).1.provCalls = 2 ∧
    hasLabel (make_labels envFour pFetch2 initState).1 1 = true ∧
    hasLabel (make_labels envFour pFetch2 initState).1 2 = true ∧
    hasLabel (make_labels envFour pFetch2 initState).1 3 = false ∧
    hasLabel (make_labels envFour pFetch2 initState).1 4 = false :=
  ⟨rfl, rfl, rfl, rfl, rfl, rfl, rfl⟩

/-- C2 counterexample: a run over one full page of two reviews, each call
reporting 100 prompt and 10 candidate tokens, ends with a single `completed`
row whose counters are all zero, although the whole run made 2 requests with
cumulative usage 200/20 — the logged counter values do not reflect totals
cumulative over the entire run, because `reset_counters` runs in the
`finally` of every page iteration. -/
theorem run_counters_not_cumulative_cex :
    (make_labels envTwo pFetch2 initState).1.log = [⟨"completed", 0, 0, 0⟩] ∧
    (make_labels envTwo pFetch2 initState).1.provCalls = 2 ∧
    promptSum envTwo 0 ((make_labels envTwo pFetch2 initState).1.provCalls) = 200 ∧
    candSum envTwo 0 ((make_labels envTwo pFetch2 initState).1.provCalls) = 20 ∧
    ((make_labels envTwo pFetch2 initState).1.log.all
      (fun row => row.input_tokens ==
        promptSum envTwo 0 ((make_labels envTwo pFetch2 initState).1.provCalls))) =
      false :=
  ⟨rfl, rfl, rfl, rfl, by decide⟩

/-- C2 (amended): the RunCounters accumulate monotonically while a page's
records are processed, but `reset_counters` runs in the `finally` block of
every page iteration (whenever the final flush does not raise), so the
counters are zero after each page — the token-budget comparison and the
values written to the usage log reflect the current page only, not the whole
run. -/
theorem run_counters_page_local :
    (∀ (env : Env) (p : Params) (reviews : List Review) (st : RunState)
       (buf : List (ℕ × LabelResult)) (st' : RunState)
       (buf' : List (ℕ × LabelResult)) (pend : Pending),
       processReviews env p reviews st buf = (st', buf', pend) →
       st.total_input_tokens ≤ st'.total_input_tokens ∧
       st.total_output_tokens ≤ st'.total_output_tokens ∧
       st.total_requests ≤ st'.total_requests) ∧
    (∀ (env : Env) (p : Params) (reviews : List Review) (st st' : RunState)
       (res : PageResult),
       runPage env p reviews st = (st', res) → (∀ e, res ≠ .escaped e) →
       st'.total_input_tokens = 0 ∧ st'.total_output_tokens = 0 ∧
       st'.total_requests = 0) := by
  constructor
  · intro env p reviews st buf st' buf' pend h
    obtain ⟨_, _, h3, h4, h5, _⟩ := processReviews_state env p reviews st buf st' buf' pend h
    exact ⟨h3, h4, h5⟩
  · intro env p reviews st st' res h hres
    exact runPage_counters env p reviews st st' res h hres

/-- Witness for C2 (amended) at the two-review page. -/
theorem run_counters_page_local_witness :
    (runPage envTwo pFetch2 [rev 1, rev 2] initState).1.total_input_tokens = 0 ∧
    (runPage envTwo pFetch2 [rev 1, rev 2] initState).1.total_output_tokens = 0 ∧
    (runPage envTwo pFetch2 [rev 1, rev 2] initState).1.total_requests = 0 :=
  run_counters_page_local.2 envTwo pFetch2 [rev 1, rev 2] initState _ _ rfl
    (fun e he => nomatch he)

/-- C3 counterexample: a run aborted by a provider-call error on its first
record returns normally with an empty usage log — this terminal transition
appends no row at all, where the claim requires exactly one. -/
theorem provider_error_appends_no_row_cex :
    (make_labels envProvErr pFetch2 initState).1.log = [] ∧
    (make_labels envProvErr pFetch2 initState).2 = .normal ∧
    (make_labels envProvErr pFetch2 initState).1.provCalls = 1 ∧
    envProvErr.prov 0 = .error () ∧
    ((make_labels envProvErr pFetch2 initState).1.log.length == 1) = false :=
  ⟨rfl, rfl, rfl, rfl, rfl⟩

/-- C3 (amended): each terminal transition appends exactly one report row to
the per-batch usage log before control returns: the empty-page break appends
one `completed` row, the token-limit stop one `stopped_due_to_token_limit`
row, and the `except KeyError` handler one `failed_due_to_keyerror` row, each
carrying the current counter values; the abort on a provider-call error
(after a clean in-budget prefix of the page) returns without appending any
row; and a whole run with a healthy storage backend appends at most one row
in total, always of one of the three terminal statuses. -/
theorem usage_log_row_per_terminal_transition :
    (∀ (env : Env) (p : Params) (st0 : RunState),
       (∀ k, env.insertFail k = false) →
       ∃ rows, (make_labels env p st0).1.log = st0.log ++ rows ∧
         (rows = [] ∨ ∃ row : LogRow, rows = [row] ∧
           (row.status = "completed" ∨ row.status = "stopped_due_to_token_limit" ∨
            row.status = "failed_due_to_keyerror"))) ∧
    (∀ (env : Env) (p : Params) (fuel i : ℕ) (st : RunState),
       0 < p.fecth_limit →
       get_unlabeled_reviews env st p.fecth_limit (i * p.fecth_limit) = [] →
       makeLabelsFrom env p (fuel + 1) i st =
         ({ st with log := st.log ++ [⟨"completed", st.total_input_tokens,
             st.total_output_tokens, st.total_requests⟩] }, .normal)) ∧
    (∀ (env : Env) (p : Params) (reviews : List Review)
       (st st1 st' : RunState) (buf : List (ℕ × LabelResult)) (res : PageResult),
       (∀ k, env.insertFail k = false) →
       processReviews env p reviews st [] = (st1, buf, .raised .keyError) →
       runPage env p reviews st = (st', res) →
       res = .finished ∧ st'.log = st.log ++ [⟨"failed_due_to_keyerror",
         st1.total_input_tokens, st1.total_output_tokens, st1.total_requests⟩]) ∧
    (∀ (env : Env) (p : Params) (reviews : List Review) (st st' : RunState)
       (res : PageResult) (j : ℕ),
       (∀ k, env.insertFail k = false) → 0 < p.batch_size → j < reviews.length →
       (∀ i, i ≤ j → callOk env (st.provCalls + i) = true) →
       (∀ i, i < j →
         st.total_input_tokens + promptSum env st.provCalls (i + 1) ≤
           p.input_token_limit ∧
         st.total_output_tokens + candSum env st.provCalls (i + 1) ≤
           p.output_token_limit) →
       (p.input_token_limit <
          st.total_input_tokens + promptSum env st.provCalls (j + 1) ∨
        p.output_token_limit <
          st.total_output_tokens + candSum env st.provCalls (j + 1)) →
       runPage env p reviews st = (st', res) →
       res = .finished ∧ st'.log = st.log ++ [⟨"stopped_due_to_token_limit",
         st.total_input_tokens + promptSum env st.provCalls (j + 1),
         st.total_output_tokens + candSum env st.provCalls (j + 1),
         st.total_requests + (j + 1)⟩]) ∧
    (∀ (env : Env) (p : Params) (reviews : List Review) (st st' : RunState)
       (res : PageResult) (j : ℕ),
       (∀ k, env.insertFail k = false) → 0 < p.batch_size → j < reviews.length →
       (∀ i, i < j → callOk env (st.provCalls + i) = true) →
       (∀ i, i < j →
         st.total_input_tokens + promptSum env st.provCalls (i + 1) ≤
           p.input_token_limit ∧
         st.total_output_tokens + candSum env st.provCalls (i + 1) ≤
           p.output_token_limit) →
       env.prov (st.provCalls + j) = .error () →
       runPage env p reviews st = (st', res) →
       res = .finished ∧ st'.log = st.log) := by
  refine ⟨?_, ?_, ?_, ?_, ?_⟩
  · intro env p st0 healthy
    exact makeLabelsFrom_log env p healthy 10000 0 st0
  · intro env p fuel i st hpos hempty
    have hrepo : repo_get_unlabeled_reviews env st p.fecth_limit
        (i * p.fecth_limit) = .ok [] := by
      rw [repo_fetch_pos env st p.fecth_limit (i * p.fecth_limit) hpos, hempty]
    rw [makeLabelsFrom]
    simp only [hrepo]
    rfl
  · intro env p reviews st st1 st' buf res healthy hpr hrp
    exact runPage_keyerror env p reviews st st1 st' buf res healthy hpr hrp
  · intro env p reviews st st' res j healthy hbs hj hok hbud hexc h
    obtain ⟨h1, _, h3, _⟩ :=
      runPage_budget_stop env p reviews st st' res j healthy hbs hj hok hbud hexc h
    exact ⟨h1, h3⟩
  · intro env p reviews st st' res j healthy hbs hj hok hbud herr h
    obtain ⟨h1, _, h3, _⟩ :=
      runPage_provider_error env p reviews st st' res j healthy hbs hj hok hbud herr h
    exact ⟨h1, h3⟩

/-- Witness for C3 (amended) at the two-review run, whose single terminal
transition appends exactly one `completed` row. -/
theorem usage_log_row_per_terminal_transition_witness :
    ∃ rows, (make_labels envTwo pFetch2 initState).1.log =
        initState.log ++ rows ∧
      (rows = [] ∨ ∃ row : LogRow, rows = [row] ∧
        (row.status = "completed" ∨ row.status = "stopped_due_to_token_limit" ∨
         row.status = "failed_due_to_keyerror")) :=
  usage_log_row_per_terminal_transition.1 envTwo pFetch2 initState
    (fun k => rfl)

/-- C4 (confirmed): fail-fast on a provider error.  If the first `j` records
of a page are labeled cleanly within budget and the provider raises on the
`(j+1)`-st call, the run stops: no later record of the page is ever sent to
the provider (exactly `j + 1` calls are made), and every label produced for
the earlier records of the page is persisted by a bulk insert before control
returns. -/
theorem fail_fast_on_provider_error (env : Env) (p : Params)
    (reviews : List Review) (st st' : RunState) (res : PageResult) (j : ℕ)
    (healthy : ∀ k, env.insertFail k = false) (hbs : 0 < p.batch_size)
    (hj : j < reviews.length)
    (hok : ∀ i, i < j → callOk env (st.provCalls + i) = true)
    (hbud : ∀ i, i < j →
      st.total_input_tokens + promptSum env st.provCalls (i + 1) ≤
        p.input_token_limit ∧
      st.total_output_tokens + candSum env st.provCalls (i + 1) ≤
        p.output_token_limit)
    (herr : env.prov (st.provCalls + j) = .error ())
    (h : runPage env p reviews st = (st', res)) :
    res = .finished ∧ st'.provCalls = st.provCalls + j + 1 ∧
    ∀ i, i < j →
      ((reviews.getD i dummyReview).id, callLabel env (st.provCalls + i)) ∈
        st'.labels := by
  obtain ⟨h1, h2, _, h4⟩ :=
    runPage_provider_error env p reviews st st' res j healthy hbs hj hok hbud herr h
  exact ⟨h1, h2, h4⟩

/-- Witness for C4: spec property P8 — provider raises on the 3rd of 5
records; records 4 and 5 are never sent (3 calls total) and the labels of
records 1 and 2 are persisted. -/
theorem fail_fast_on_provider_error_witness :
    (runPage envErrAt3 pFetch2 [rev 1, rev 2, rev 3, rev 4, rev 5] initState).2 =
        .finished ∧
    (runPage envErrAt3 pFetch2 [rev 1, rev 2, rev 3, rev 4, rev 5] initState).1.provCalls = 3 ∧
    ∀ i, i < 2 →
      (([rev 1, rev 2, rev 3, rev 4, rev 5].getD i dummyReview).id,
        callLabel envErrAt3 (initState.provCalls + i)) ∈
        (runPage envErrAt3 pFetch2 [rev 1, rev 2, rev 3, rev 4, rev 5] initState).1.labels := by
  have h := fail_fast_on_provider_error envErrAt3 pFetch2
    [rev 1, rev 2, rev 3, rev 4, rev 5] initState
    (runPage envErrAt3 pFetch2 [rev 1, rev 2, rev 3, rev 4, rev 5] initState).1
    (runPage envErrAt3 pFetch2 [rev 1, rev 2, rev 3, rev 4, rev 5] initState).2 2
    (fun k => rfl) (by decide) (by decide) (by decide) (by decide) rfl rfl
  exact ⟨h.1, h.2.1, h.2.2⟩

/-- C5 (confirmed): after each successfully labeled record, if the input or
output counter strictly exceeds its limit, the run logs one
`stopped_due_to_token_limit` row carrying the page-cumulative counters,
flushes the buffer (every produced label is persisted) and stops immediately,
even mid-page; concretely, with 100 prompt tokens per call and an input
budget of 250, the run stops after exactly the 3rd successful call with
counters 300/0/3 and the three labels persisted. -/
theorem token_budget_stop :
    (∀ (env : Env) (p : Params) (reviews : List Review) (st st' : RunState)
       (res : PageResult) (j : ℕ),
       (∀ k, env.insertFail k = false) → 0 < p.batch_size → j < reviews.length →
       (∀ i, i ≤ j → callOk env (st.provCalls + i) = true) →
       (∀ i, i < j →
         st.total_input_tokens + promptSum env st.provCalls (i + 1) ≤
           p.input_token_limit ∧
         st.total_output_tokens + candSum env st.provCalls (i + 1) ≤
           p.output_token_limit) →
       (p.input_token_limit <
          st.total_input_tokens + promptSum env st.provCalls (j + 1) ∨
        p.output_token_limit <
          st.total_output_tokens + candSum env st.provCalls (j + 1)) →
       runPage env p reviews st = (st', res) →
       res = .finished ∧ st'.provCalls = st.provCalls + j + 1 ∧
       st'.log = st.log ++ [⟨"stopped_due_to_token_limit",
         st.total_input_tokens + promptSum env st.provCalls (j + 1),
         st.total_output_tokens + candSum env st.provCalls (j + 1),
         st.total_requests + (j + 1)⟩] ∧
       ∀ i, i ≤ j →
         ((reviews.getD i dummyReview).id, callLabel env (st.provCalls + i)) ∈
           st'.labels) ∧
    ((make_labels envFive100 pBudget250 initState).1.log =
        [⟨"stopped_due_to_token_limit", 300, 0, 3⟩] ∧
     (make_labels envFive100 pBudget250 initState).1.provCalls = 3 ∧
     (make_labels envFive100 pBudget250 initState).1.labels.map Prod.fst = [1, 2, 3] ∧
     (make_labels envFive100 pBudget250 initState).2 = .normal) :=
  ⟨runPage_budget_stop, rfl, rfl, rfl, rfl⟩

/-- Witness for C5 at the P3 page: stop after exactly the 3rd call. -/
theorem token_budget_stop_witness :
    (runPage envFive100 pBudget250 [rev 1, rev 2, rev 3, rev 4, rev 5] initState).2 =
        .finished ∧
    (runPage envFive100 pBudget250 [rev 1, rev 2, rev 3, rev 4, rev 5] initState).1.provCalls = 3 ∧
    (runPage envFive100 pBudget250 [rev 1, rev 2, rev 3, rev 4, rev 5] initState).1.log =
      initState.log ++ [⟨"stopped_due_to_token_limit",
        initState.total_input_tokens + promptSum envFive100 initState.provCalls 3,
        initState.total_output_tokens + candSum envFive100 initState.provCalls 3,
        initState.total_requests + 3⟩] :=  by
  have h := token_budget_stop.1 envFive100 pBudget250
    [rev 1, rev 2, rev 3, rev 4, rev 5] initState
    (runPage envFive100 pBudget250 [rev 1, rev 2, rev 3, rev 4, rev 5] initState).1
    (runPage envFive100 pBudget250 [rev 1, rev 2, rev 3, rev 4, rev 5] initState).2 2
    (fun k => rfl) (by decide) (by decide) (by decide) (by decide) (by decide) rfl
  exact ⟨h.1, h.2.1, h.2.2.1⟩

/-- C8 (confirmed): with a healthy backend and positive `batch_size`, the
bulk inserts issued during one page are full batches of exactly `batch_size`
rows — the buffer is flushed exactly when it reaches that size — followed by
at most one final insert of the non-empty remainder (strictly smaller than
`batch_size`); concretely, with `batch_size = 2` and 5 labeled records in one
page, exactly 3 bulk inserts occur with sizes [2, 2, 1] in that order. -/
theorem write_batching :
    (∀ (env : Env) (p : Params) (reviews : List Review) (st st' : RunState)
       (res : PageResult),
       (∀ k, env.insertFail k = false) → 0 < p.batch_size →
       runPage env p reviews st = (st', res) →
       ∃ news mids rem, st'.inserts = st.inserts ++ news ∧ news = mids ++ rem ∧
         (∀ b ∈ mids, b.length = p.batch_size) ∧
         (rem = [] ∨ ∃ l, rem = [l] ∧ 0 < l.length ∧ l.length < p.batch_size)) ∧
    (make_labels envFive pBatch2 initState).1.inserts.map List.length = [2, 2, 1] := by
  constructor
  · intro env p reviews st st' res healthy hbs h
    obtain ⟨_, _, news2, hins, _, hshape⟩ := runPage_state env p reviews st st' res h
    obtain ⟨mids, rem, hsplit, hmids, hrem⟩ := hshape healthy hbs
    exact ⟨news2, mids, rem, hins, hsplit, hmids, hrem⟩
  · rfl

/-- Witness for C8 at the five-record page with `batch_size = 2`. -/
theorem write_batching_witness :
    ∃ news mids rem,
      (runPage envFive pBatch2 [rev 1, rev 2, rev 3, rev 4, rev 5] initState).1.inserts =
        initState.inserts ++ news ∧ news = mids ++ rem ∧
      (∀ b ∈ mids, b.length = pBatch2.batch_size) ∧
      (rem = [] ∨ ∃ l, rem = [l] ∧ 0 < l.length ∧ l.length < pBatch2.batch_size) :=
  write_batching.1 envFive pBatch2 [rev 1, rev 2, rev 3, rev 4, rev 5] initState
    (runPage envFive pBatch2 [rev 1, rev 2, rev 3, rev 4, rev 5] initState).1
    (runPage envFive pBatch2 [rev 1, rev 2, rev 3, rev 4, rev 5] initState).2
    (fun k => rfl) (by decide) rfl

/-- C9 counterexample: with a backend whose bulk inserts raise, the in-page
flush's storage error propagates, the `finally` retry raises again, and the
exception escapes `make_labels` to the invoking process — the claim that no
exception after construction escapes is false. -/
theorem storage_error_escapes_cex :
    (make_labels envInsFail pBatch1 initState).2 = .raised .storageError ∧
    decide ((make_labels envInsFail pBatch1 initState).2 = RunExit.normal) = false :=
  ⟨rfl, by decide⟩

/-- C9 (amended): provider-call exceptions and `KeyError` from missing usage
metadata are caught inside the run, so with a healthy storage backend and a
positive `fecth_limit` (the repository's call validation passing)
`make_labels` always returns normally; but a non-positive `fecth_limit`
raises `ValueError` from `ReviewRepository._validate_positive`, outside the
page `try`, and that exception escapes — as does a storage error raised by a
bulk label insert (the page loop's handler only catches `KeyError`). -/
theorem no_escape_with_healthy_storage :
    (∀ (env : Env) (p : Params) (st0 : RunState),
       (∀ k, env.insertFail k = false) → 0 < p.fecth_limit →
       (make_labels env p st0).2 = .normal) ∧
    (∀ (env : Env) (p : Params) (st0 : RunState),
       p.fecth_limit = 0 →
       make_labels env p st0 =
         (st0, .raised (.valueError "limit must be positive, got 0"))) := by
  constructor
  · intro env p st0 healthy hpos
    exact makeLabelsFrom_exit_normal env p healthy hpos 10000 0 st0
  · intro env p st0 h0
    have hrepo : repo_get_unlabeled_reviews env st0 p.fecth_limit
        (0 * p.fecth_limit) =
        .error (.valueError "limit must be positive, got 0") := by
      simp only [repo_get_unlabeled_reviews, h0]
      rfl
    show makeLabelsFrom env p 10000 0 st0 = _
    rw [show (10000 : ℕ) = 9999 + 1 from rfl, makeLabelsFrom]
    simp only [hrepo]

/-- Witness for C9 (amended) at a concrete healthy five-record run. -/
theorem no_escape_with_healthy_storage_witness :
    (make_labels envFive pBatch2 initState).2 = .normal :=
  no_escape_with_healthy_storage.1 envFive pBatch2 initState (fun k => rfl)
    (by decide)

/-- C10 (confirmed): every bulk insert issued during a page contains only
rows labeled from that page's fetched reviews (the buffer is per-page: it is
empty at every fetch and flushed within the same page iteration), so no
insert ever mixes two pages; and a partial-size insert occurs at every page
boundary with a remainder, not only at run end — concretely, with
`fecth_limit = 2` and `batch_size = 3`, both pages end with a partial insert
of size 2 < 3, each containing only that page's review ids. -/
theorem inserts_single_page_only :
    (∀ (env : Env) (p : Params) (reviews : List Review) (st st' : RunState)
       (res : PageResult),
       runPage env p reviews st = (st', res) →
       ∃ news, st'.inserts = st.inserts ++ news ∧
         ∀ b ∈ news, ∀ x ∈ b, x.1 ∈ reviews.map Review.id) ∧
    ((make_labels envSix pFetch2Batch3 initState).1.inserts.map (List.map Prod.fst) =
        [[1, 2], [5, 6]] ∧
     (make_labels envSix pFetch2Batch3 initState).1.inserts.map List.length = [2, 2] ∧
     pFetch2Batch3.batch_size = 3 ∧
     (make_labels envSix pFetch2Batch3 initState).1.log.map LogRow.status =
        ["completed"]) := by
  constructor
  · intro env p reviews st st' res h
    obtain ⟨_, _, news2, hins, hcont, _⟩ := runPage_state env p reviews st st' res h
    exact ⟨news2, hins, hcont⟩
  · exact ⟨rfl, rfl, rfl, rfl⟩

/-- Witness for C10 at the first page of the two-page run. -/
theorem inserts_single_page_only_witness :
    ∃ news,
      (runPage envSix pFetch2Batch3 [rev 1, rev 2] initState).1.inserts =
        initState.inserts ++ news ∧
      ∀ b ∈ news, ∀ x ∈ b, x.1 ∈ [rev 1, rev 2].map Review.id :=
  inserts_single_page_only.1 envSix pFetch2Batch3 [rev 1, rev 2] initState
    (runPage envSix pFetch2Batch3 [rev 1, rev 2] initState).1
    (runPage envSix pFetch2Batch3 [rev 1, rev 2] initState).2 rfl

/-- C6 counterexample: a response whose single confidence is null makes
`parser_label` raise a bare `TypeError` from the `0.0 <= c` comparison — not
a `ValueError` identifying the failed rule and carrying the raw text, as the
claim states for every violation. -/
theorem null_confidence_not_valueError_cex :
    parser_label ["a"] nullConfDecode "x" = .error .typeError ∧
    isValueErrorB .typeError = false :=
  ⟨rfl, rfl⟩

/-- Witness for C6 (amended), at the null-confidence response: the success
iff holds, and the raised error is classified (here, the `TypeError` arm). -/
theorem parser_label_valid_iff_witness :
    ((∃ pr, parser_label ["a"] nullConfDecode "x" = .ok pr) ↔
      specValidResponse ["a"] nullConfDecode "x" = true) ∧
    (PyErr.typeError = .typeError ∨
      ∃ rule, PyErr.typeError = PyErr.valueError (rule ++ "x")) :=
  ⟨(parser_label_valid_iff ["a"] nullConfDecode "x").1,
   (parser_label_valid_iff ["a"] nullConfDecode "x").2 .typeError rfl⟩

/-- C7 (confirmed): `process_label` zips the aspect names positionally, in
construction-time order, with the validated (score, confidence) pairs and
attaches the backend usage counts, the input text length and the model
version; on the §8 scenario the result is exactly the expected mapping and
the orchestrator's counters after processing that one record are
`total_input_tokens = 50`, `total_output_tokens = 10`, `total_requests = 1`. -/
theorem process_label_zip_scenario :
    (∀ (aspects : List String) (decode : String → Option JValue)
       (resp : GenResponse) (text : String) (ss cs : List JValue),
       aspects.Nodup →
       parser_label aspects decode resp.text = .ok (ss, cs) →
       process_label aspects decode resp text =
         .ok ⟨specZipLabels aspects ss cs,
              ⟨some ⟨some resp.prompt_token_count, some resp.candidates_token_count⟩,
               some text.length, some resp.model_version⟩⟩) ∧
    process_label ["food", "service"] scenarioDecode scenarioResp
        "great food, slow service" =
      .ok ⟨[("food", ⟨.num q09, .num q095⟩), ("service", ⟨.num qm03, .num q07⟩)],
           ⟨some ⟨some 50, some 10⟩, some 24, some "gemini-2.5-flash-lite"⟩⟩ ∧
    (processReviews scenarioEnv pFetch2 [⟨1, "great food, slow service"⟩]
        initState []).1.total_input_tokens = 50 ∧
    (processReviews scenarioEnv pFetch2 [⟨1, "great food, slow service"⟩]
        initState []).1.total_output_tokens = 10 ∧
    (processReviews scenarioEnv pFetch2 [⟨1, "great food, slow service"⟩]
        initState []).1.total_requests = 1 := by
  refine ⟨?_, rfl, rfl, rfl, rfl⟩
  intro aspects decode resp text ss cs hnd hparse
  obtain ⟨_, hss, hcs⟩ := parser_label_ok aspects decode resp.text ss cs hparse
  unfold process_label
  rw [hparse]
  exact congrArg
    (fun l => (Except.ok ⟨l, ⟨some ⟨some resp.prompt_token_count,
      some resp.candidates_token_count⟩, some text.length,
      some resp.model_version⟩⟩ : Except PyErr LabelResult))
    (buildLabels_zip aspects ss cs hnd hss hcs)

/-- Witness for C7's general part at the §8 scenario. -/
theorem process_label_zip_scenario_witness :
    process_label ["food", "service"] scenarioDecode scenarioResp
        "great food, slow service" =
      .ok ⟨specZipLabels ["food", "service"]
            [.num q09, .num qm03] [.num q095, .num q07],
           ⟨some ⟨some 50, some 10⟩, some 24, some "gemini-2.5-flash-lite"⟩⟩ :=
  process_label_zip_scenario.1 ["food", "service"] scenarioDecode scenarioResp
    "great food, slow service" [.num q09, .num qm03] [.num q095, .num q07]
    (by decide) rfl

end ReviewRadar
